import Mathlib

/-!
Constrained Goldbach triple analysis: embedding and verified properties.

A shallow embedding of `src/rsc/ConstrainedGoldbachTripleAnalysis.cpp`.

Conventions of the embedding.

* `vector<bool>` sieve arrays are `List Bool`. Every read and write of an array is
  bounds-checked: an access outside the array makes the function return `none`. The loops
  with a variable stride carry an iteration budget (`fuel`) that the calling function
  computes itself; an exhausted budget also gives `none`. A result `some _` therefore
  says that the function terminated and that every array access was inside the array.
* The sieves work on natural numbers. `generateBasePrimes` takes an `int limit` whose
  square root is only defined for `limit ≥ 0`; `segmentedSieve` takes `long long` bounds and
  `int` base primes, and its negative array size (`high + 1 < low`) and its division by a
  zero base prime are mapped to `none`. `static_cast<int>(sqrt(limit))` is `Nat.sqrt limit`
  (a `double` represents every `int` exactly and its square root is correctly rounded).
  All intermediate values stay far below the bounds of the machine types for the inputs of
  the program (`limit = high = 1000000`).
* `countRepresentations` works on `Int` (`long long`), with the truncating division of C++
  (`Int.tdiv`). An `unordered_set` argument is a list without repetitions: the elements of
  the set in the order in which the range-for of the function visits them. That order is
  not specified by the container, so nothing is assumed about it: the set `main` builds is
  any list that holds the elements of `allPrimes` once each (`IsMainPrimeSet`).
* `double ratioToR5Sum` is a rational number: the statistics are stated in exact arithmetic.
-/

/-! ## The source functions -/

/-- The marking loop shared by both sieves:
`for (j = start; j <= bound; j += step) isPrime[j - off] = false;`
with `off = 0`, `bound = root` in `generateBasePrimes` and `off = low`, `bound = high` in
`segmentedSieve`. The first argument after `off` is the iteration budget, the second is `j`. -/
def markLoop (step bound off : Nat) : Nat → Nat → List Bool → Option (List Bool)
  | 0, j, isPrime => if j ≤ bound then none else some isPrime
  | fuel + 1, j, isPrime =>
    if j ≤ bound then
      if j - off < isPrime.length ∧ off ≤ j then
        markLoop step bound off fuel (j + step) (isPrime.set (j - off) false)
      else none
    else some isPrime

/-- The outer loop of `generateBasePrimes`:
`for (int i = 2; i * i <= root; ++i) if (isPrime[i]) for (j = i * i; j <= root; j += i) ...`. -/
def sieveLoop (root : Nat) : Nat → Nat → List Bool → Option (List Bool)
  | 0, i, isPrime => if i * i ≤ root then none else some isPrime
  | fuel + 1, i, isPrime =>
    if i * i ≤ root then
      match isPrime[i]? with
      | none => none
      | some true =>
        match markLoop i root 0 (root + 1 - i * i) (i * i) isPrime with
        | none => none
        | some marked => sieveLoop root fuel (i + 1) marked
      | some false => sieveLoop root fuel (i + 1) isPrime
    else some isPrime

/-- The collecting loop of both sieves, over the indices `i` in ascending order:
`if (isPrime[i - off] && i >= 2) primes.push_back(i);`
(`generateBasePrimes` starts at `i = 2` with `off = 0`, where `i >= 2` always holds). -/
def collectLoop (isPrime : List Bool) (off : Nat) : List Nat → Option (List Nat)
  | [] => some []
  | i :: rest =>
    match isPrime[i - off]? with
    | none => none
    | some b =>
      match collectLoop isPrime off rest with
      | none => none
      | some primes => some (if b && decide (2 ≤ i) then i :: primes else primes)

/-- `vector<int> generateBasePrimes(int limit)`, lines 10-22. -/
def generateBasePrimes (limit : Nat) : Option (List Nat) :=
  let root := Nat.sqrt limit + 1
  let isPrime := List.replicate (root + 1) true
  if 1 < isPrime.length then
    let isPrime := (isPrime.set 0 false).set 1 false
    match sieveLoop root root 2 isPrime with
    | none => none
    | some sieved => collectLoop sieved 0 (List.range' 2 (root + 1 - 2))
  else none

/-- The loop over the base primes of `segmentedSieve`:
`start = max(p * p, ((low + p - 1) / p) * p)` and the marking loop from `start`. -/
def sieveAll (low high : Nat) : List Nat → List Bool → Option (List Bool)
  | [], isPrime => some isPrime
  | p :: rest, isPrime =>
    if p = 0 then none
    else
      let start := max (p * p) (((low + p - 1) / p) * p)
      match markLoop p high low (high + 1 - start) start isPrime with
      | none => none
      | some marked => sieveAll low high rest marked

/-- `vector<long long> segmentedSieve(long long low, long long high, basePrimes)`,
lines 24-36. -/
def segmentedSieve (low high : Nat) (basePrimes : List Nat) : Option (List Nat) :=
  if high + 1 < low then none
  else
    let isPrime := List.replicate (high + 1 - low) true
    match sieveAll low high basePrimes isPrime with
    | none => none
    | some sieved => collectLoop sieved low (List.range' low (high + 1 - low))

/-- The loop of `countRepresentations` over the elements of the set still to visit:
`if (p > target / 2) break; if (primeSet.count(target - p)) ++count;`. -/
def countLoop (target : Int) (primeSet : List Int) : List Int → Nat → Nat
  | [], count => count
  | p :: rest, count =>
    if p > target.tdiv 2 then count
    else countLoop target primeSet rest (if target - p ∈ primeSet then count + 1 else count)

/-- `int countRepresentations(long long n, int c, primeSet)`, lines 38-46. -/
def countRepresentations (n c : Int) (primeSet : List Int) : Nat :=
  countLoop (n - c) primeSet primeSet 0

/-- `struct Stats`, lines 48-53. -/
structure Stats where
  count : Int := 0
  total : Int := 0
  ratioToR5Sum : ℚ := 0
  ratioCount : Int := 0
deriving DecidableEq

/-- `void updateExclusive(Stats& stats, int rc, int r5)`, lines 55-62. -/
def updateExclusive (stats : Stats) (rc r5 : Int) : Stats :=
  let stats := { stats with count := stats.count + 1 }
  let stats := { stats with total := stats.total + rc }
  if r5 > 0 then
    let stats := { stats with ratioToR5Sum := stats.ratioToR5Sum + (rc : ℚ) / (r5 : ℚ) }
    { stats with ratioCount := stats.ratioCount + 1 }
  else stats

/-- `void updateTotal(Stats& stats, int rc, int r5)`, lines 64-71. -/
def updateTotal (stats : Stats) (rc r5 : Int) : Stats :=
  let stats := if rc > 0 then { stats with count := stats.count + 1 } else stats
  let stats := { stats with total := stats.total + rc }
  if r5 > 0 then
    let stats := { stats with ratioToR5Sum := stats.ratioToR5Sum + (rc : ℚ) / (r5 : ℚ) }
    { stats with ratioCount := stats.ratioCount + 1 }
  else stats

/-- The eight local records of `analyzeRange`, lines 91-92. -/
structure Tables where
  ex3 : Stats := {}
  ex5 : Stats := {}
  ex7 : Stats := {}
  ex11 : Stats := {}
  tot3 : Stats := {}
  tot5 : Stats := {}
  tot7 : Stats := {}
  tot11 : Stats := {}
deriving DecidableEq

/-- The exclusive first-hit step of `analyzeRange`, lines 100-104. -/
def exclusiveStep (t : Tables) (r3 r5 r7 r11 : Int) : Tables :=
  if r3 > 0 then { t with ex3 := updateExclusive t.ex3 r3 r5 }
  else if r5 > 0 then { t with ex5 := updateExclusive t.ex5 r5 r5 }
  else if r7 > 0 then { t with ex7 := updateExclusive t.ex7 r7 r5 }
  else if r11 > 0 then { t with ex11 := updateExclusive t.ex11 r11 r5 }
  else t

/-- The total density step of `analyzeRange`, lines 106-110. -/
def totalStep (t : Tables) (r3 r5 r7 r11 : Int) : Tables :=
  let t := { t with tot3 := updateTotal t.tot3 r3 r5 }
  let t := { t with tot5 := updateTotal t.tot5 r5 r5 }
  let t := { t with tot7 := updateTotal t.tot7 r7 r5 }
  { t with tot11 := updateTotal t.tot11 r11 r5 }

/-- The body of the loop of `analyzeRange` for one number `n`, lines 94-111. -/
def analyzeStep (primeSet : List Int) (t : Tables) (n : Int) : Tables :=
  let r3 : Int := countRepresentations n 3 primeSet
  let r5 : Int := countRepresentations n 5 primeSet
  let r7 : Int := countRepresentations n 7 primeSet
  let r11 : Int := countRepresentations n 11 primeSet
  totalStep (exclusiveStep t r3 r5 r7 r11) r3 r5 r7 r11

/-- `analyzeRange`, lines 90-115: the records handed to `printTable` after the loop. -/
def analyzeRange (numbers : List Int) (primeSet : List Int) : Tables :=
  numbers.foldl (analyzeStep primeSet) {}

/-- The two averages a row of `printTable` shows, lines 80-81:
`s.count > 0 ? total / count : 0.0`. -/
def avgRepresentations (s : Stats) : ℚ :=
  if s.count > 0 then (s.total : ℚ) / (s.count : ℚ) else 0

/-- The average ratio of a row, line 81: `s.ratioCount > 0 ? ratioToR5Sum / ratioCount : 0.0`. -/
def avgRatioToR5 (s : Stats) : ℚ :=
  if s.ratioCount > 0 then s.ratioToR5Sum / (s.ratioCount : ℚ) else 0

/-- The vector `allPrimes` of `main`, lines 122-123, with the three constants as
parameters: `generateBasePrimes(limit)`, then `segmentedSieve(low, high, basePrimes)`. -/
def buildAllPrimes (low high limit : Nat) : Option (List Nat) :=
  match generateBasePrimes limit with
  | none => none
  | some basePrimes => segmentedSieve low high basePrimes

/-- The vector `allPrimes` of the program: `generateBasePrimes(1000000)` and
`segmentedSieve(9, 1000000, basePrimes)`. -/
def mainAllPrimes : Option (List Nat) := buildAllPrimes 9 1000000 1000000

/-- Line 124, `unordered_set<long long> primeSet(allPrimes.begin(), allPrimes.end())`:
the set holds every value of the vector once, and the order in which it is iterated is
unspecified. `primeSet` is the set in one possible iteration order: a rearrangement of
the distinct values of `allPrimes`. -/
def IsSetOf (allPrimes : List Nat) (primeSet : List Int) : Prop :=
  primeSet.Perm (allPrimes.map Int.ofNat).dedup

/-- The list `primeSet` is the prime set of `main` in one of its possible iteration orders. -/
def IsMainPrimeSet (primeSet : List Int) : Prop :=
  ∃ allPrimes, mainAllPrimes = some allPrimes ∧ IsSetOf allPrimes primeSet

/-- The selection loop of mode 1 of `main`, lines 131-137:
`for (long long n = 9; n <= 1000000; n += 2)` with the test
`(choice == 1 && isPrime) || (choice == 2 && !isPrime) || (choice == 3)`,
where `isPrime = primeSet.count(n)`. The bound of the loop is the parameter `hi`; the
first argument after it is the iteration budget, the second is `n`. -/
def selectLoop (choice : Int) (primeSet : List Int) (hi : Int) : Nat → Int → Option (List Int)
  | 0, n => if n ≤ hi then none else some []
  | fuel + 1, n =>
    if n ≤ hi then
      match selectLoop choice primeSet hi fuel (n + 2) with
      | none => none
      | some selected =>
        if (choice = 1 ∧ n ∈ primeSet) ∨ (choice = 2 ∧ ¬ n ∈ primeSet) ∨ choice = 3 then
          some (n :: selected)
        else some selected
    else some []

/-- The loop of mode 2 of `main`, lines 141-147, building `primesOnly`, `compositesOnly`
and `allNumbers` (in this order in the result). -/
def splitLoop (primeSet : List Int) (hi : Int) :
    Nat → Int → Option (List Int × List Int × List Int)
  | 0, n => if n ≤ hi then none else some ([], [], [])
  | fuel + 1, n =>
    if n ≤ hi then
      match splitLoop primeSet hi fuel (n + 2) with
      | none => none
      | some (primesOnly, compositesOnly, allNumbers) =>
        if n ∈ primeSet then some (n :: primesOnly, compositesOnly, n :: allNumbers)
        else some (primesOnly, n :: compositesOnly, n :: allNumbers)
    else some ([], [], [])

/-- The sequence `selected` of mode 1 for the loop `for (n = lo; n <= hi; n += 2)`. -/
def selectNumbers (choice : Int) (primeSet : List Int) (lo hi : Int) : Option (List Int) :=
  selectLoop choice primeSet hi (hi + 1 - lo).toNat lo

/-- The three sequences of mode 2 for the loop `for (n = lo; n <= hi; n += 2)`. -/
def splitNumbers (primeSet : List Int) (lo hi : Int) :
    Option (List Int × List Int × List Int) :=
  splitLoop primeSet hi (hi + 1 - lo).toNat lo

/-- The sequence `selected` of mode 1 of `main`: `n` from 9 to 1000000 in steps of 2. -/
def mainSelected (choice : Int) (primeSet : List Int) : Option (List Int) :=
  selectNumbers choice primeSet 9 1000000

/-- The sequences `primesOnly`, `compositesOnly`, `allNumbers` of mode 2 of `main`. -/
def mainSequences (primeSet : List Int) : Option (List Int × List Int × List Int) :=
  splitNumbers primeSet 9 1000000

/-! ## Definitions of the specification -/

/-- The primes of `[low, high]` in ascending order, by a primality check on every integer
of the interval. -/
def primesBetween (low high : Nat) : List Nat :=
  (List.range' low (high + 1 - low)).filter (fun m => decide (Nat.Prime m))

/-- Brute-force primality check by trial division: `n ≥ 2` and no `d` with `2 ≤ d < n`
divides `n`. -/
def isPrimeTrial (n : Nat) : Bool :=
  decide (2 ≤ n) && (List.range' 2 (n - 2)).all (fun d => n % d != 0)

/-- The trial-division list of the primes `p ≤ √limit`, that is `p * p ≤ limit`, ascending. -/
def primesUpToSqrt (limit : Nat) : List Nat :=
  (List.range (limit + 1)).filter (fun p => decide (p * p ≤ limit) && isPrimeTrial p)

/-- Brute-force number of pairs `(p, q)` of primes with `lo ≤ p ≤ q` and `p + q = target`:
every `p` from `0` to `target` is tried, with `q = target - p`. -/
def pairsFrom (lo : Nat) (target : Int) : Nat :=
  ((List.range (target.toNat + 1)).filter (fun p =>
    decide (lo ≤ p) && isPrimeTrial p && isPrimeTrial (target.toNat - p) &&
      decide (p ≤ target.toNat - p))).length

/-- Brute-force number of pairs `(p, q)` of primes with `p ≤ q` and `p + q = target`. -/
def bruteForcePairs (target : Int) : Nat := pairsFrom 0 target

/-- Representation count of `n` for the constant `c`, as `analyzeRange` stores it in an
`int` (`r3`, `r5`, `r7`, `r11`). -/
def repCount (primeSet : List Int) (c : Int) (n : Int) : Int :=
  (countRepresentations n c primeSet : Int)

/-- Loop invariant of the outer sieve loop: the entries still `true` before round `i` are
the `m` in `[2, root]` that no prime `p < i` has marked (`p ∣ m` and `p * p ≤ m`). -/
def SieveInv (root i : Nat) (a : List Bool) : Prop :=
  a.length = root + 1 ∧
    ∀ m, (a[m]? = some true ↔
      m ≤ root ∧ 2 ≤ m ∧ ∀ p, Nat.Prime p → p < i → p ∣ m → m < p * p)

/-- The change one `updateExclusive` call makes, as the specification words it: `count`
grows by one, `total` by `rc`, and exactly when `r5 > 0` the ratio sum grows by `rc / r5`
and `ratioCount` by one. -/
def IsExclusiveUpdate (old new : Stats) (rc r5 : Int) : Prop :=
  new.count = old.count + 1 ∧ new.total = old.total + rc ∧
    (0 < r5 → new.ratioToR5Sum = old.ratioToR5Sum + (rc : ℚ) / (r5 : ℚ) ∧
      new.ratioCount = old.ratioCount + 1) ∧
    (¬ 0 < r5 → new.ratioToR5Sum = old.ratioToR5Sum ∧ new.ratioCount = old.ratioCount)

/-- The total-density record of a constant after a number sequence, as the specification
words it, from the constant's own counts `rc n` and the shared counts `r5 n`. -/
def IsTotalDensityRecord (s : Stats) (numbers : List Int) (rc r5 : Int → Int) : Prop :=
  s.count = ((numbers.filter (fun n => decide (0 < rc n))).length : Int) ∧
    s.total = (numbers.map rc).sum ∧
    s.ratioCount = ((numbers.filter (fun n => decide (0 < r5 n))).length : Int) ∧
    s.ratioToR5Sum =
      ((numbers.filter (fun n => decide (0 < r5 n))).map
        (fun n => (rc n : ℚ) / (r5 n : ℚ))).sum

/-- The full scan of the specification: every element `p` of the set is visited and
counted when `p ≤ target / 2` (truncating division) and `target - p` is in the set. -/
def fullScanCount (n c : Int) (primeSet : List Int) : Nat :=
  (primeSet.filter (fun p => decide (p ≤ (n - c).tdiv 2 ∧ (n - c) - p ∈ primeSet))).length

/-- The bound on a record the reporter relies on: `0 ≤ count ≤ total`, so that the average
representation count of its row is 0 or at least 1. -/
def CountWithinTotal (s : Stats) : Prop :=
  0 ≤ s.count ∧ s.count ≤ s.total ∧ (avgRepresentations s = 0 ∨ 1 ≤ avgRepresentations s)

/-! ## The marking and collecting loops -/
theorem markLoop_spec (step bound off : Nat) (hstep : 0 < step) :
    ∀ (fuel j : Nat) (a : List Bool), bound + 1 - j ≤ fuel → off ≤ j →
      bound < off + a.length →
      ∃ a', markLoop step bound off fuel j a = some a' ∧ a'.length = a.length ∧
        ∀ t, (a'[t]? = some true ↔
          a[t]? = some true ∧ ¬ ∃ k, t + off = j + k * step ∧ t + off ≤ bound) := by
  intro fuel
  induction fuel with
  | zero =>
    intro j a hf _ _
    have hj : ¬ j ≤ bound := by omega
    refine ⟨a, by simp [markLoop, hj], rfl, fun t => ?_⟩
    constructor
    · intro h
      refine ⟨h, ?_⟩
      rintro ⟨k, hk, hb⟩
      have : j ≤ j + k * step := Nat.le_add_right _ _
      omega
    · exact fun h => h.1
  | succ fuel ih =>
    intro j a hf hoff hlen
    by_cases hj : j ≤ bound
    · have hidx : j - off < a.length ∧ off ≤ j := ⟨by omega, hoff⟩
      obtain ⟨a', ha', hl', hspec⟩ := ih (j + step) (a.set (j - off) false) (by omega) (by omega)
        (by simpa using hlen)
      refine ⟨a', by simp only [markLoop, if_pos hj, if_pos hidx]; exact ha', by simpa using hl',
        fun t => ?_⟩
      rw [hspec t, List.getElem?_set]
      constructor
      · rintro ⟨h1, h2⟩
        by_cases ht : j - off = t
        · rw [if_pos ht] at h1
          split at h1 <;> simp at h1
        · rw [if_neg ht] at h1
          refine ⟨h1, ?_⟩
          rintro ⟨k, hk, hb⟩
          cases k with
          | zero => omega
          | succ k =>
            apply h2
            refine ⟨k, ?_, hb⟩
            rw [hk, Nat.succ_mul]
            omega
      · rintro ⟨h1, h2⟩
        have ht : ¬ j - off = t := by
          intro ht
          apply h2
          refine ⟨0, by omega, by omega⟩
        rw [if_neg ht]
        refine ⟨h1, ?_⟩
        rintro ⟨k, hk, hb⟩
        apply h2
        refine ⟨k + 1, ?_, hb⟩
        rw [hk, Nat.succ_mul]
        omega
    · refine ⟨a, by simp [markLoop, hj], rfl, fun t => ?_⟩
      constructor
      · intro h
        refine ⟨h, ?_⟩
        rintro ⟨k, hk, hb⟩
        have : j ≤ j + k * step := Nat.le_add_right _ _
        omega
      · exact fun h => h.1

theorem collectLoop_spec (a : List Bool) (off : Nat) :
    ∀ (is : List Nat), (∀ i ∈ is, i - off < a.length) →
      collectLoop a off is =
        some (is.filter (fun i => decide (a[i - off]? = some true) && decide (2 ≤ i))) := by
  intro is
  induction is with
  | nil => intro _; rfl
  | cons i rest ih =>
    intro h
    have hi : i - off < a.length := h i (List.mem_cons_self _ _)
    have hrest := ih (fun x hx => h x (List.mem_cons_of_mem _ hx))
    simp only [collectLoop, hrest, List.getElem?_eq_getElem hi, List.filter_cons]
    cases a[i - off] <;> simp

/-! ## The segmented sieve -/

/-- The first write position of the marking loop for base prime `p`. -/
theorem start_props (low p : Nat) (hp : 0 < p) :
    low ≤ max (p * p) (((low + p - 1) / p) * p) ∧ p ∣ max (p * p) (((low + p - 1) / p) * p) := by
  have h1 : low ≤ ((low + p - 1) / p) * p := by
    have h := Nat.div_add_mod (low + p - 1) p
    have h2 := Nat.mod_lt (low + p - 1) hp
    rw [Nat.mul_comm] at h
    omega
  refine ⟨le_trans h1 (le_max_right _ _), ?_⟩
  rcases max_choice (p * p) (((low + p - 1) / p) * p) with h | h <;> rw [h]
  · exact Dvd.intro _ rfl
  · exact Dvd.intro_left _ rfl

theorem ceil_mul_le (low p m : Nat) (hp : 0 < p) (hlow : low ≤ m) (hd : p ∣ m) :
    ((low + p - 1) / p) * p ≤ m := by
  obtain ⟨k, rfl⟩ := hd
  have : (low + p - 1) / p ≤ k := by
    rw [Nat.div_le_iff_le_mul_add_pred hp]
    have : low ≤ p * k := hlow
    omega
  calc ((low + p - 1) / p) * p ≤ k * p := Nat.mul_le_mul_right _ this
    _ = p * k := Nat.mul_comm _ _

theorem sieveAll_spec (low high : Nat) :
    ∀ (ps : List Nat) (a : List Bool), (∀ p ∈ ps, 0 < p) → high < low + a.length →
      ∃ a', sieveAll low high ps a = some a' ∧ a'.length = a.length ∧
        ∀ t, (a'[t]? = some true ↔
          a[t]? = some true ∧ ∀ p ∈ ps, ¬ ∃ k,
            t + low = max (p * p) (((low + p - 1) / p) * p) + k * p ∧ t + low ≤ high) := by
  intro ps
  induction ps with
  | nil =>
    intro a _ _
    exact ⟨a, rfl, rfl, fun t => by simp⟩
  | cons p rest ih =>
    intro a hpos hlen
    have hp : 0 < p := hpos p (List.mem_cons_self _ _)
    obtain ⟨a1, h1, hl1, hs1⟩ := markLoop_spec p high low hp
      (high + 1 - max (p * p) (((low + p - 1) / p) * p))
      (max (p * p) (((low + p - 1) / p) * p)) a (le_refl _) (start_props low p hp).1 hlen
    obtain ⟨a2, h2, hl2, hs2⟩ := ih a1 (fun q hq => hpos q (List.mem_cons_of_mem _ hq))
      (by rw [hl1]; exact hlen)
    refine ⟨a2, ?_, by rw [hl2, hl1], fun t => ?_⟩
    · simp only [sieveAll, if_neg (Nat.pos_iff_ne_zero.mp hp), h1]
      exact h2
    · rw [hs2 t, hs1 t]
      simp only [List.forall_mem_cons]
      tauto

/-- A number of the interval stays unmarked exactly when it is prime (or below 2). -/
theorem unmarked_iff_prime (low high : Nat) (bp : List Nat)
    (hprime : ∀ p ∈ bp, Nat.Prime p)
    (hcover : ∀ p, Nat.Prime p → p * p ≤ high → p ∈ bp)
    (m : Nat) (hlow : low ≤ m) (hhigh : m ≤ high) (hm : 2 ≤ m) :
    (∀ p ∈ bp, ¬ ∃ k, m = max (p * p) (((low + p - 1) / p) * p) + k * p ∧ m ≤ high) ↔
      Nat.Prime m := by
  constructor
  · intro h
    by_contra hnp
    have hq : Nat.Prime m.minFac := Nat.minFac_prime (by omega)
    have hsq : m.minFac * m.minFac ≤ m := by
      have := Nat.minFac_sq_le_self (by omega : 0 < m) hnp
      simpa [sq] using this
    have hmem : m.minFac ∈ bp := hcover _ hq (le_trans hsq hhigh)
    have hdvd : m.minFac ∣ m := Nat.minFac_dvd m
    have hstart : max (m.minFac * m.minFac) (((low + m.minFac - 1) / m.minFac) * m.minFac) ≤ m :=
      max_le hsq (ceil_mul_le low _ m hq.pos hlow hdvd)
    have hd2 := (start_props low m.minFac hq.pos).2
    obtain ⟨k, hk⟩ := (Nat.dvd_sub' hdvd hd2)
    apply h _ hmem
    refine ⟨k, ?_, hhigh⟩
    rw [Nat.mul_comm k, ← hk]
    omega
  · intro hmp p hp
    rintro ⟨k, hk, _⟩
    have hpp : Nat.Prime p := hprime p hp
    have hd2 := (start_props low p hpp.pos).2
    have hdvd : p ∣ m := by
      rw [hk]
      exact Dvd.dvd.add hd2 (Dvd.intro_left _ rfl)
    have hpm : p = m := (Nat.prime_dvd_prime_iff_eq hpp hmp).mp hdvd
    have h1 : p * p ≤ m := by
      have : p * p ≤ max (p * p) (((low + p - 1) / p) * p) := le_max_left _ _
      omega
    rw [hpm] at h1
    have : m * 2 ≤ m * m := Nat.mul_le_mul_left _ hm
    omega

theorem mem_primesBetween (low high m : Nat) :
    m ∈ primesBetween low high ↔ low ≤ m ∧ m ≤ high ∧ Nat.Prime m := by
  simp only [primesBetween, List.mem_filter, List.mem_range'_1, decide_eq_true_eq]
  constructor
  · rintro ⟨⟨h1, h2⟩, h3⟩
    exact ⟨h1, by omega, h3⟩
  · rintro ⟨h1, h2, h3⟩
    exact ⟨⟨h1, by omega⟩, h3⟩

theorem primesBetween_sorted (low high : Nat) :
    List.Pairwise (fun x y => x < y) (primesBetween low high) :=
  List.Pairwise.sublist (List.filter_sublist _) (List.pairwise_lt_range' low _)

theorem segmentedSieve_eq (low high : Nat) (bp : List Nat) (hle : low ≤ high + 1)
    (hprime : ∀ p ∈ bp, Nat.Prime p)
    (hcover : ∀ p, Nat.Prime p → p * p ≤ high → p ∈ bp) :
    segmentedSieve low high bp = some (primesBetween low high) := by
  obtain ⟨a, ha, hl, hs⟩ := sieveAll_spec low high bp (List.replicate (high + 1 - low) true)
    (fun p hp => (hprime p hp).pos) (by simp; omega)
  have hlen : a.length = high + 1 - low := by simpa using hl
  have hcol := collectLoop_spec a low (List.range' low (high + 1 - low)) (by
    intro i hi
    rw [List.mem_range'_1] at hi
    omega)
  simp only [segmentedSieve, if_neg (by omega : ¬ high + 1 < low), ha, hcol, primesBetween]
  congr 1
  apply List.filter_congr
  intro m hm
  rw [List.mem_range'_1] at hm
  by_cases h2 : 2 ≤ m
  · have hiff := unmarked_iff_prime low high bp hprime hcover m hm.1 (by omega) h2
    have hinit : (List.replicate (high + 1 - low) true)[m - low]? = some true := by
      rw [List.getElem?_replicate]
      simp
      omega
    have hsm := hs (m - low)
    rw [show m - low + low = m by omega] at hsm
    simp only [hinit, true_and] at hsm
    rw [hiff] at hsm
    by_cases hp : Nat.Prime m
    · simp [hp, hsm.mpr hp, h2]
    · have : ¬ a[m - low]? = some true := fun h => hp (hsm.mp h)
      simp [hp, this]
  · have hp : ¬ Nat.Prime m := fun h => h2 h.two_le
    simp [hp, h2]

/-! ## The base prime generator -/

theorem sieveInv_entry_iff_prime (root i : Nat) (a : List Bool) (hinv : SieveInv root i a)
    (hi : 2 ≤ i) (hroot : i ≤ root) : a[i]? = some true ↔ Nat.Prime i := by
  rw [hinv.2 i]
  constructor
  · rintro ⟨_, _, h⟩
    by_contra hnp
    have hq : Nat.Prime i.minFac := Nat.minFac_prime (by omega)
    have hsq : i.minFac * i.minFac ≤ i := by
      have := Nat.minFac_sq_le_self (by omega : 0 < i) hnp
      simpa [sq] using this
    have hlt : i.minFac < i := by
      have : i.minFac * 2 ≤ i.minFac * i.minFac := Nat.mul_le_mul_left _ hq.two_le
      have := hq.pos
      omega
    have := h _ hq hlt (Nat.minFac_dvd i)
    omega
  · intro hp
    refine ⟨hroot, hi, fun p hpp hlt hdvd => ?_⟩
    have := (Nat.prime_dvd_prime_iff_eq hpp hp).mp hdvd
    omega

theorem sieveInv_final (root i : Nat) (a : List Bool) (hinv : SieveInv root i a)
    (hi : root < i * i) (m : Nat) : a[m]? = some true ↔ m ≤ root ∧ Nat.Prime m := by
  rw [hinv.2 m]
  constructor
  · rintro ⟨h1, h2, h3⟩
    refine ⟨h1, ?_⟩
    by_contra hnp
    have hq : Nat.Prime m.minFac := Nat.minFac_prime (by omega)
    have hsq : m.minFac * m.minFac ≤ m := by
      have := Nat.minFac_sq_le_self (by omega : 0 < m) hnp
      simpa [sq] using this
    have hlt : m.minFac < i := by
      by_contra hge
      have : i * i ≤ m.minFac * m.minFac := Nat.mul_le_mul (by omega) (by omega)
      omega
    have := h3 _ hq hlt (Nat.minFac_dvd m)
    omega
  · rintro ⟨h1, hp⟩
    refine ⟨h1, hp.two_le, fun p hpp _ hdvd => ?_⟩
    have hpm := (Nat.prime_dvd_prime_iff_eq hpp hp).mp hdvd
    rw [hpm]
    have : m * 2 ≤ m * m := Nat.mul_le_mul_left _ hp.two_le
    have := hp.two_le
    omega

theorem sieveInv_skip (root i : Nat) (a : List Bool) (hinv : SieveInv root i a)
    (hnp : ¬ Nat.Prime i) : SieveInv root (i + 1) a := by
  refine ⟨hinv.1, fun m => ?_⟩
  rw [hinv.2 m]
  constructor
  · rintro ⟨h1, h2, h3⟩
    refine ⟨h1, h2, fun p hpp hlt hdvd => h3 p hpp ?_ hdvd⟩
    have : p ≠ i := fun h => hnp (h ▸ hpp)
    omega
  · rintro ⟨h1, h2, h3⟩
    exact ⟨h1, h2, fun p hpp hlt hdvd => h3 p hpp (by omega) hdvd⟩

theorem sieveInv_mark (root i : Nat) (a a' : List Bool) (hinv : SieveInv root i a)
    (hp : Nat.Prime i) (hl : a'.length = a.length)
    (hs : ∀ t, (a'[t]? = some true ↔
      a[t]? = some true ∧ ¬ ∃ k, t + 0 = i * i + k * i ∧ t + 0 ≤ root)) :
    SieveInv root (i + 1) a' := by
  refine ⟨by rw [hl]; exact hinv.1, fun m => ?_⟩
  rw [hs m, hinv.2 m]
  constructor
  · rintro ⟨⟨h1, h2, h3⟩, h4⟩
    refine ⟨h1, h2, fun p hpp hlt hdvd => ?_⟩
    by_cases hpi : p = i
    · subst hpi
      by_contra hge
      apply h4
      have hd : p ∣ m - p * p := Nat.dvd_sub' hdvd (Dvd.intro _ rfl)
      obtain ⟨k, hk⟩ := hd
      refine ⟨k, ?_, by omega⟩
      rw [Nat.mul_comm k, ← hk]
      omega
    · exact h3 p hpp (by omega) hdvd
  · rintro ⟨h1, h2, h3⟩
    refine ⟨⟨h1, h2, fun p hpp hlt hdvd => h3 p hpp (by omega) hdvd⟩, ?_⟩
    rintro ⟨k, hk, _⟩
    have hdvd : i ∣ m := by
      have : m = i * i + k * i := by omega
      rw [this]
      exact Dvd.dvd.add (Dvd.intro _ rfl) (Dvd.intro_left _ rfl)
    have := h3 i hp (by omega) hdvd
    have : i * i ≤ i * i + k * i := Nat.le_add_right _ _
    omega

theorem sieveLoop_spec (root : Nat) :
    ∀ (fuel i : Nat) (a : List Bool), 2 ≤ i → root + 1 - i ≤ fuel → SieveInv root i a →
      ∃ a', sieveLoop root fuel i a = some a' ∧ a'.length = root + 1 ∧
        ∀ m, (a'[m]? = some true ↔ m ≤ root ∧ Nat.Prime m) := by
  intro fuel
  induction fuel with
  | zero =>
    intro i a hi hf hinv
    have hlt : root < i * i := by
      have : i * 2 ≤ i * i := Nat.mul_le_mul_left _ hi
      omega
    exact ⟨a, by simp [sieveLoop, Nat.not_le.mpr hlt], hinv.1, sieveInv_final root i a hinv hlt⟩
  | succ fuel ih =>
    intro i a hi hf hinv
    by_cases hc : i * i ≤ root
    · have hiroot : i ≤ root := by
        have : i * 2 ≤ i * i := Nat.mul_le_mul_left _ hi
        omega
      have hilen : i < a.length := by rw [hinv.1]; omega
      have hentry := sieveInv_entry_iff_prime root i a hinv hi hiroot
      rw [List.getElem?_eq_getElem hilen] at hentry
      cases hb : a[i] with
      | true =>
        rw [hb] at hentry
        have hp : Nat.Prime i := hentry.mp rfl
        obtain ⟨a1, h1, hl1, hs1⟩ := markLoop_spec i root 0 hp.pos (root + 1 - i * i) (i * i) a
          (le_refl _) (Nat.zero_le _) (by rw [hinv.1]; omega)
        obtain ⟨a2, h2, hrest⟩ := ih (i + 1) a1 (by omega) (by omega)
          (sieveInv_mark root i a a1 hinv hp hl1 hs1)
        refine ⟨a2, ?_, hrest⟩
        simp only [sieveLoop, if_pos hc, List.getElem?_eq_getElem hilen, hb, h1]
        exact h2
      | false =>
        rw [hb] at hentry
        have hnp : ¬ Nat.Prime i := fun h => by simpa using hentry.mpr h
        obtain ⟨a2, h2, hrest⟩ := ih (i + 1) a (by omega) (by omega)
          (sieveInv_skip root i a hinv hnp)
        refine ⟨a2, ?_, hrest⟩
        simp only [sieveLoop, if_pos hc, List.getElem?_eq_getElem hilen, hb]
        exact h2
    · exact ⟨a, by simp [sieveLoop, hc], hinv.1,
        sieveInv_final root i a hinv (Nat.not_le.mp hc)⟩

theorem sieveInv_init (root : Nat) :
    SieveInv root 2 (((List.replicate (root + 1) true).set 0 false).set 1 false) := by
  refine ⟨by simp, fun m => ?_⟩
  simp only [List.getElem?_set, List.getElem?_replicate, List.length_set, List.length_replicate]
  constructor
  · intro h
    by_cases h1 : 1 = m
    · rw [if_pos h1] at h
      split at h <;> simp at h
    · rw [if_neg h1] at h
      by_cases h0 : 0 = m
      · rw [if_pos h0] at h
        split at h <;> simp at h
      · rw [if_neg h0] at h
        split at h
        · refine ⟨by omega, by omega, fun p hpp hlt => ?_⟩
          have := hpp.two_le
          omega
        · simp at h
  · rintro ⟨h1, h2, _⟩
    rw [if_neg (by omega), if_neg (by omega), if_pos (by omega)]

theorem generateBasePrimes_eq (limit : Nat) :
    generateBasePrimes limit = some (primesBetween 2 (Nat.sqrt limit + 1)) := by
  obtain ⟨a, ha, hl, hs⟩ := sieveLoop_spec (Nat.sqrt limit + 1) (Nat.sqrt limit + 1) 2 _
    (le_refl 2) (by omega) (sieveInv_init _)
  have hcol := collectLoop_spec a 0 (List.range' 2 (Nat.sqrt limit + 1 + 1 - 2)) (by
    intro i hi
    rw [List.mem_range'_1] at hi
    omega)
  simp only [generateBasePrimes, List.length_replicate, if_pos (by omega : 1 < Nat.sqrt limit + 1 + 1),
    ha, hcol, primesBetween]
  congr 1
  apply List.filter_congr
  intro m hm
  rw [List.mem_range'_1] at hm
  have hsm := hs m
  by_cases hp : Nat.Prime m
  · have : a[m]? = some true := hsm.mpr ⟨by omega, hp⟩
    simp [hp, this, hp.two_le]
  · have : ¬ a[m]? = some true := fun h => hp (hsm.mp h).2
    simp [hp, this]

/-! ## The representation counter -/

theorem le_tdiv_two_iff (target p : Int) (hp : 0 < p) :
    p ≤ target.tdiv 2 ↔ p ≤ target - p := by
  by_cases h : 0 ≤ target
  · rw [Int.tdiv_eq_ediv h (by decide)]
    omega
  · have hneg : target.tdiv 2 ≤ 0 := by
      have h1 : target = -(-target) := by omega
      rw [h1, Int.neg_tdiv, Int.tdiv_eq_ediv (by omega) (by decide)]
      omega
    constructor <;> intro <;> omega

theorem countLoop_eq (target : Int) (S : List Int) :
    ∀ (l : List Int) (count : Nat), List.Pairwise (fun x y => x < y) l → (∀ p ∈ l, 0 < p) →
      countLoop target S l count =
        count + (l.filter (fun p => decide (p ≤ target - p ∧ target - p ∈ S))).length := by
  intro l
  induction l with
  | nil => intro count _ _; rfl
  | cons p rest ih =>
    intro count hsorted hpos
    have hp : 0 < p := hpos p (List.mem_cons_self _ _)
    rw [List.pairwise_cons] at hsorted
    by_cases hbreak : p > target.tdiv 2
    · have hnone : (p :: rest).filter (fun q => decide (q ≤ target - q ∧ target - q ∈ S)) = [] := by
        rw [List.filter_eq_nil_iff]
        intro q hq
        have hq0 : 0 < q := hpos q hq
        have hpq : p ≤ q := by
          rcases List.mem_cons.mp hq with h | h
          · exact le_of_eq h.symm
          · exact le_of_lt (hsorted.1 q h)
        have : ¬ q ≤ target.tdiv 2 := by omega
        rw [le_tdiv_two_iff target q hq0] at this
        simp [this]
      rw [hnone]
      simp [countLoop, hbreak]
    · have hle : p ≤ target - p := (le_tdiv_two_iff target p hp).mp (by omega)
      simp only [countLoop, if_neg hbreak]
      rw [ih _ hsorted.2 (fun q hq => hpos q (List.mem_cons_of_mem _ hq))]
      by_cases hmem : target - p ∈ S
      · simp [hmem, hle, List.filter_cons]
        omega
      · simp [hmem, List.filter_cons]

theorem countRepresentations_eq (n c : Int) (S : List Int)
    (hsorted : List.Pairwise (fun x y => x < y) S) (hpos : ∀ p ∈ S, 0 < p) :
    countRepresentations n c S =
      (S.filter (fun p => decide (p ≤ (n - c) - p ∧ (n - c) - p ∈ S))).length := by
  simp [countRepresentations, countLoop_eq (n - c) S S 0 hsorted hpos]

theorem isPrimeTrial_iff (n : Nat) : isPrimeTrial n = true ↔ Nat.Prime n := by
  rw [Nat.prime_def_lt']
  simp only [isPrimeTrial, Bool.and_eq_true, decide_eq_true_eq, List.all_eq_true,
    List.mem_range'_1, Nat.dvd_iff_mod_eq_zero]
  constructor
  · rintro ⟨h2, h⟩
    exact ⟨h2, fun m hm hlt => by simpa using h m ⟨hm, by omega⟩⟩
  · rintro ⟨h2, h⟩
    exact ⟨h2, fun m hm => by simpa using h m hm.1 (by omega)⟩

theorem mem_mainList (lo hi : Nat) (z : Int) :
    z ∈ (primesBetween lo hi).map Int.ofNat ↔
      (lo : Int) ≤ z ∧ z ≤ (hi : Int) ∧ Nat.Prime z.toNat := by
  simp only [List.mem_map, mem_primesBetween]
  constructor
  · rintro ⟨m, ⟨h1, h2, h3⟩, rfl⟩
    refine ⟨by simpa using h1, by simpa using h2, by simpa using h3⟩
  · rintro ⟨h1, h2, h3⟩
    refine ⟨z.toNat, ⟨by omega, by omega, h3⟩, ?_⟩
    have : 0 ≤ z := le_trans (Int.ofNat_nonneg lo) h1
    simp [Int.toNat_of_nonneg this]

theorem mainList_sorted (lo hi : Nat) :
    List.Pairwise (fun x y => x < y) ((primesBetween lo hi).map Int.ofNat) := by
  rw [List.pairwise_map]
  exact List.Pairwise.imp (fun h => by simpa using h) (primesBetween_sorted lo hi)

theorem mainList_pos (lo hi : Nat) : ∀ p ∈ (primesBetween lo hi).map Int.ofNat, (0 : Int) < p := by
  intro p hp
  rw [mem_mainList] at hp
  have := hp.2.2.pos
  omega

/-- Over the ascending list of the primes of `[lo, hi]`, the counter returns the number of
prime pairs `(p, q)` with `lo ≤ p ≤ q` and `p + q = n - c`, as long as `n - c ≤ hi`. -/
theorem countRepresentations_primesBetween (lo hi : Nat) (n c : Int) (hhi : n - c ≤ (hi : Int)) :
    countRepresentations n c ((primesBetween lo hi).map Int.ofNat) = pairsFrom lo (n - c) := by
  rw [countRepresentations_eq n c _ (mainList_sorted lo hi) (mainList_pos lo hi)]
  rw [List.filter_map, List.length_map, pairsFrom]
  apply List.Perm.length_eq
  have hnd : (primesBetween lo hi).Nodup :=
    List.Nodup.filter _ (List.nodup_range' _ _)
  rw [List.perm_ext_iff_of_nodup (List.Nodup.filter _ hnd)
    (List.Nodup.filter _ (List.nodup_range _))]
  intro m
  simp only [List.mem_filter, mem_primesBetween, Function.comp_apply, decide_eq_true_eq,
    mem_mainList, List.mem_range, Bool.and_eq_true, isPrimeTrial_iff, Int.ofNat_eq_coe]
  constructor
  · rintro ⟨⟨h1, h2, h3⟩, h4, h5, h6, h7⟩
    have ht : (n - c).toNat - m = (n - c - (m : Int)).toNat := by omega
    refine ⟨by omega, ⟨⟨h1, h3⟩, ?_⟩, by omega⟩
    rw [ht]
    exact h7
  · rintro ⟨h1, ⟨⟨h2, h3⟩, h4⟩, h5⟩
    have hq := h4.two_le
    have ht : (n - c).toNat - m = (n - c - (m : Int)).toNat := by omega
    rw [ht] at h4
    refine ⟨⟨h2, by omega, h3⟩, by omega, by omega, by omega, h4⟩

theorem basePrimes_cover (high p : Nat) (hp : Nat.Prime p) (hsq : p * p ≤ high) :
    p ∈ primesBetween 2 (Nat.sqrt high + 1) := by
  rw [mem_primesBetween]
  have : p ≤ Nat.sqrt high := Nat.le_sqrt.mpr hsq
  exact ⟨hp.two_le, by omega, hp⟩

theorem sieve_pipeline_eq (low high : Nat) (hle : low ≤ high + 1) :
    segmentedSieve low high (primesBetween 2 (Nat.sqrt high + 1)) =
      some (primesBetween low high) :=
  segmentedSieve_eq low high _ hle (fun _ hp => ((mem_primesBetween _ _ _).mp hp).2.2)
    (fun p hp hsq => basePrimes_cover high p hp hsq)

theorem buildAllPrimes_eq (low high : Nat) (hle : low ≤ high + 1) :
    buildAllPrimes low high high = some (primesBetween low high) := by
  simp only [buildAllPrimes, generateBasePrimes_eq, sieve_pipeline_eq low high hle]

theorem mainAllPrimes_eq : mainAllPrimes = some (primesBetween 9 1000000) :=
  buildAllPrimes_eq 9 1000000 (by omega)

/-! ## The statistics records -/

theorem exclusiveStep_tot (t : Tables) (r3 r5 r7 r11 : Int) :
    (exclusiveStep t r3 r5 r7 r11).tot3 = t.tot3 ∧ (exclusiveStep t r3 r5 r7 r11).tot5 = t.tot5 ∧
      (exclusiveStep t r3 r5 r7 r11).tot7 = t.tot7 ∧
      (exclusiveStep t r3 r5 r7 r11).tot11 = t.tot11 := by
  unfold exclusiveStep
  split_ifs <;> exact ⟨rfl, rfl, rfl, rfl⟩

theorem totalStep_ex (t : Tables) (r3 r5 r7 r11 : Int) :
    (totalStep t r3 r5 r7 r11).ex3 = t.ex3 ∧ (totalStep t r3 r5 r7 r11).ex5 = t.ex5 ∧
      (totalStep t r3 r5 r7 r11).ex7 = t.ex7 ∧ (totalStep t r3 r5 r7 r11).ex11 = t.ex11 :=
  ⟨rfl, rfl, rfl, rfl⟩

theorem totalStep_tot (t : Tables) (r3 r5 r7 r11 : Int) :
    (totalStep t r3 r5 r7 r11).tot3 = updateTotal t.tot3 r3 r5 ∧
      (totalStep t r3 r5 r7 r11).tot5 = updateTotal t.tot5 r5 r5 ∧
      (totalStep t r3 r5 r7 r11).tot7 = updateTotal t.tot7 r7 r5 ∧
      (totalStep t r3 r5 r7 r11).tot11 = updateTotal t.tot11 r11 r5 :=
  ⟨rfl, rfl, rfl, rfl⟩

/-- A view of the table that every step updates by one `updateTotal` call folds like a
single record. -/
theorem foldl_view_total (proj : Tables → Stats) (rc r5 : Int → Int) (step : Tables → Int → Tables)
    (hstep : ∀ t n, proj (step t n) = updateTotal (proj t) (rc n) (r5 n)) :
    ∀ (numbers : List Int) (t : Tables),
      proj (numbers.foldl step t) =
        numbers.foldl (fun s n => updateTotal s (rc n) (r5 n)) (proj t) := by
  intro numbers
  induction numbers with
  | nil => intro t; rfl
  | cons n rest ih =>
    intro t
    simp only [List.foldl_cons]
    rw [ih (step t n), hstep]

theorem foldl_updateTotal (rc r5 : Int → Int) :
    ∀ (numbers : List Int) (s : Stats),
      let out := numbers.foldl (fun s n => updateTotal s (rc n) (r5 n)) s
      out.count = s.count + ((numbers.filter (fun n => decide (0 < rc n))).length : Int) ∧
      out.total = s.total + (numbers.map rc).sum ∧
      out.ratioCount = s.ratioCount + ((numbers.filter (fun n => decide (0 < r5 n))).length : Int) ∧
      out.ratioToR5Sum = s.ratioToR5Sum +
        ((numbers.filter (fun n => decide (0 < r5 n))).map
          (fun n => (rc n : ℚ) / (r5 n : ℚ))).sum := by
  intro numbers
  induction numbers with
  | nil => intro s; simp
  | cons n rest ih =>
    intro s
    simp only [List.foldl_cons]
    obtain ⟨h1, h2, h3, h4⟩ := ih (updateTotal s (rc n) (r5 n))
    refine ⟨?_, ?_, ?_, ?_⟩
    · rw [h1]
      by_cases hrc : 0 < rc n <;> by_cases hr5 : 0 < r5 n <;>
        simp [updateTotal, hrc, hr5, List.filter_cons] <;> ring
    · rw [h2]
      by_cases hrc : 0 < rc n <;> by_cases hr5 : 0 < r5 n <;>
        simp [updateTotal, hrc, hr5] <;> ring
    · rw [h3]
      by_cases hrc : 0 < rc n <;> by_cases hr5 : 0 < r5 n <;>
        simp [updateTotal, hrc, hr5, List.filter_cons] <;> ring
    · rw [h4]
      by_cases hrc : 0 < rc n <;> by_cases hr5 : 0 < r5 n <;>
        simp [updateTotal, hrc, hr5, List.filter_cons] <;> ring

theorem foldl_view_invariant (proj : Tables → Stats) (step : Tables → Int → Tables)
    (P : Stats → Prop) (hstep : ∀ t n, P (proj t) → P (proj (step t n))) :
    ∀ (numbers : List Int) (t : Tables), P (proj t) → P (proj (numbers.foldl step t)) := by
  intro numbers
  induction numbers with
  | nil => intro t h; exact h
  | cons n rest ih =>
    intro t h
    simp only [List.foldl_cons]
    exact ih (step t n) (hstep t n h)

theorem analyzeStep_tot (S : List Int) (t : Tables) (n : Int) :
    (analyzeStep S t n).tot3 = updateTotal t.tot3 (repCount S 3 n) (repCount S 5 n) ∧
      (analyzeStep S t n).tot5 = updateTotal t.tot5 (repCount S 5 n) (repCount S 5 n) ∧
      (analyzeStep S t n).tot7 = updateTotal t.tot7 (repCount S 7 n) (repCount S 5 n) ∧
      (analyzeStep S t n).tot11 = updateTotal t.tot11 (repCount S 11 n) (repCount S 5 n) := by
  simp only [analyzeStep, repCount]
  refine ⟨?_, ?_, ?_, ?_⟩
  · rw [(totalStep_tot _ _ _ _ _).1, (exclusiveStep_tot _ _ _ _ _).1]
  · rw [(totalStep_tot _ _ _ _ _).2.1, (exclusiveStep_tot _ _ _ _ _).2.1]
  · rw [(totalStep_tot _ _ _ _ _).2.2.1, (exclusiveStep_tot _ _ _ _ _).2.2.1]
  · rw [(totalStep_tot _ _ _ _ _).2.2.2, (exclusiveStep_tot _ _ _ _ _).2.2.2]

theorem analyzeStep_ex (S : List Int) (t : Tables) (n : Int) :
    (analyzeStep S t n).ex3 =
        (exclusiveStep t (repCount S 3 n) (repCount S 5 n) (repCount S 7 n) (repCount S 11 n)).ex3 ∧
      (analyzeStep S t n).ex5 =
        (exclusiveStep t (repCount S 3 n) (repCount S 5 n) (repCount S 7 n) (repCount S 11 n)).ex5 ∧
      (analyzeStep S t n).ex7 =
        (exclusiveStep t (repCount S 3 n) (repCount S 5 n) (repCount S 7 n) (repCount S 11 n)).ex7 ∧
      (analyzeStep S t n).ex11 =
        (exclusiveStep t (repCount S 3 n) (repCount S 5 n) (repCount S 7 n) (repCount S 11 n)).ex11 :=
  ⟨rfl, rfl, rfl, rfl⟩

/-- Every exclusive record after one exclusive step is the old record or one
`updateExclusive` call on it. -/
theorem exclusiveStep_cases (t : Tables) (r3 r5 r7 r11 : Int) :
    ((exclusiveStep t r3 r5 r7 r11).ex3 = t.ex3 ∨
        (exclusiveStep t r3 r5 r7 r11).ex3 = updateExclusive t.ex3 r3 r5) ∧
      ((exclusiveStep t r3 r5 r7 r11).ex5 = t.ex5 ∨
        (0 < r5 ∧ (exclusiveStep t r3 r5 r7 r11).ex5 = updateExclusive t.ex5 r5 r5)) ∧
      ((exclusiveStep t r3 r5 r7 r11).ex7 = t.ex7 ∨
        (¬ 0 < r5 ∧ (exclusiveStep t r3 r5 r7 r11).ex7 = updateExclusive t.ex7 r7 r5)) ∧
      ((exclusiveStep t r3 r5 r7 r11).ex11 = t.ex11 ∨
        (¬ 0 < r5 ∧ (exclusiveStep t r3 r5 r7 r11).ex11 = updateExclusive t.ex11 r11 r5)) := by
  unfold exclusiveStep
  by_cases h3 : r3 > 0
  · simp [h3]
  · by_cases h5 : r5 > 0
    · simp [h3, h5]
    · by_cases h7 : r7 > 0
      · simp [h3, h5, h7]
      · by_cases h11 : r11 > 0
        · simp [h3, h5, h7, h11]
        · simp [h3, h5, h7, h11]

theorem updateExclusive_ratio_le (s : Stats) (rc r5 : Int)
    (h : 0 ≤ s.ratioCount ∧ s.ratioCount ≤ s.count) :
    0 ≤ (updateExclusive s rc r5).ratioCount ∧
      (updateExclusive s rc r5).ratioCount ≤ (updateExclusive s rc r5).count := by
  unfold updateExclusive
  by_cases h5 : r5 > 0
  · simp only [h5, if_true]
    constructor <;> omega
  · simp only [h5, if_false]
    constructor <;> omega

theorem foldl_updateExclusive_ratio_le :
    ∀ (calls : List (Int × Int)) (s : Stats), 0 ≤ s.ratioCount ∧ s.ratioCount ≤ s.count →
      0 ≤ (calls.foldl (fun s rr => updateExclusive s rr.1 rr.2) s).ratioCount ∧
        (calls.foldl (fun s rr => updateExclusive s rr.1 rr.2) s).ratioCount ≤
          (calls.foldl (fun s rr => updateExclusive s rr.1 rr.2) s).count := by
  intro calls
  induction calls with
  | nil => intro s h; exact h
  | cons rr rest ih =>
    intro s h
    simp only [List.foldl_cons]
    exact ih _ (updateExclusive_ratio_le s rr.1 rr.2 h)

theorem updateExclusive_self (s : Stats) (r5 : Int) (h5 : 0 < r5)
    (h : s.ratioToR5Sum = (s.ratioCount : ℚ) ∧ s.ratioCount = s.count) :
    (updateExclusive s r5 r5).ratioToR5Sum = ((updateExclusive s r5 r5).ratioCount : ℚ) ∧
      (updateExclusive s r5 r5).ratioCount = (updateExclusive s r5 r5).count := by
  have hne : (r5 : ℚ) ≠ 0 := by
    have : r5 ≠ 0 := by omega
    exact_mod_cast this
  unfold updateExclusive
  simp only [gt_iff_lt, h5, if_true]
  refine ⟨?_, by omega⟩
  rw [div_self hne, h.1]
  push_cast
  ring

/-! ## Further facts on the representation counter -/

theorem countLoop_le_scan (target : Int) (S : List Int) :
    ∀ (l : List Int) (count : Nat),
      countLoop target S l count ≤
        count + (l.filter (fun p => decide (p ≤ target.tdiv 2 ∧ target - p ∈ S))).length := by
  intro l
  induction l with
  | nil => intro count; simp [countLoop]
  | cons p rest ih =>
    intro count
    by_cases hbreak : p > target.tdiv 2
    · simp only [countLoop, if_pos hbreak]
      omega
    · have hle : p ≤ target.tdiv 2 := by omega
      simp only [countLoop, if_neg hbreak]
      refine le_trans (ih _) ?_
      by_cases hmem : target - p ∈ S
      · simp [hmem, hle, List.filter_cons]
        omega
      · simp [hmem, List.filter_cons]

theorem countRepresentations_le_fullScan (n c : Int) (S : List Int) :
    countRepresentations n c S ≤ fullScanCount n c S := by
  have h := countLoop_le_scan (n - c) S S 0
  simpa [countRepresentations, fullScanCount] using h

theorem fullScanCount_le_length (n c : Int) (S : List Int) : fullScanCount n c S ≤ S.length :=
  List.length_filter_le _ _

theorem segmentedSieve_general (low high : Nat) (bp : List Nat) (hle : low ≤ high + 1)
    (hpos : ∀ p ∈ bp, 0 < p) :
    ∃ out, segmentedSieve low high bp = some out ∧
      ∀ m, m ∈ out ↔ (low ≤ m ∧ m ≤ high ∧ 2 ≤ m ∧ ∀ p ∈ bp, ¬ ∃ k,
        m = max (p * p) (((low + p - 1) / p) * p) + k * p) := by
  obtain ⟨a, ha, hl, hs⟩ := sieveAll_spec low high bp (List.replicate (high + 1 - low) true)
    hpos (by simp; omega)
  have hlen : a.length = high + 1 - low := by simpa using hl
  have hcol := collectLoop_spec a low (List.range' low (high + 1 - low)) (by
    intro i hi
    rw [List.mem_range'_1] at hi
    omega)
  have hres : segmentedSieve low high bp = some ((List.range' low (high + 1 - low)).filter
      (fun i => decide (a[i - low]? = some true) && decide (2 ≤ i))) := by
    simp only [segmentedSieve, if_neg (by omega : ¬ high + 1 < low), ha, hcol]
  refine ⟨_, hres, fun m => ?_⟩
  simp only [List.mem_filter, List.mem_range'_1, Bool.and_eq_true, decide_eq_true_eq]
  constructor
  · rintro ⟨⟨h1, h2⟩, h3, h4⟩
    have hsm := (hs (m - low)).mp h3
    rw [show m - low + low = m by omega] at hsm
    refine ⟨h1, by omega, h4, fun p hp => ?_⟩
    rintro ⟨k, hk⟩
    exact hsm.2 p hp ⟨k, hk, by omega⟩
  · rintro ⟨h1, h2, h3, h4⟩
    refine ⟨⟨h1, by omega⟩, ?_, h3⟩
    rw [hs (m - low), show m - low + low = m by omega]
    constructor
    · rw [List.getElem?_replicate]
      simp
      omega
    · intro p hp
      rintro ⟨k, hk, _⟩
      exact h4 p hp ⟨k, hk⟩

/-! ## Further facts on the statistics records -/

theorem repCount_nonneg (S : List Int) (c n : Int) : 0 ≤ repCount S c n :=
  Int.ofNat_nonneg _

theorem foldl_tables_invariant (step : Tables → Int → Tables) (P : Tables → Prop)
    (hstep : ∀ t n, P t → P (step t n)) :
    ∀ (numbers : List Int) (t : Tables), P t → P (numbers.foldl step t) := by
  intro numbers
  induction numbers with
  | nil => intro t h; exact h
  | cons n rest ih =>
    intro t h
    simp only [List.foldl_cons]
    exact ih (step t n) (hstep t n h)

/-- Every exclusive record after one exclusive step is the old record, or one
`updateExclusive` call on it with a positive count of its own constant. -/
theorem exclusiveStep_cases_pos (t : Tables) (r3 r5 r7 r11 : Int) :
    ((exclusiveStep t r3 r5 r7 r11).ex3 = t.ex3 ∨
        (0 < r3 ∧ (exclusiveStep t r3 r5 r7 r11).ex3 = updateExclusive t.ex3 r3 r5)) ∧
      ((exclusiveStep t r3 r5 r7 r11).ex5 = t.ex5 ∨
        (0 < r5 ∧ (exclusiveStep t r3 r5 r7 r11).ex5 = updateExclusive t.ex5 r5 r5)) ∧
      ((exclusiveStep t r3 r5 r7 r11).ex7 = t.ex7 ∨
        (0 < r7 ∧ (exclusiveStep t r3 r5 r7 r11).ex7 = updateExclusive t.ex7 r7 r5)) ∧
      ((exclusiveStep t r3 r5 r7 r11).ex11 = t.ex11 ∨
        (0 < r11 ∧ (exclusiveStep t r3 r5 r7 r11).ex11 = updateExclusive t.ex11 r11 r5)) := by
  unfold exclusiveStep
  by_cases h3 : r3 > 0
  · simp [h3]
  · by_cases h5 : r5 > 0
    · simp [h3, h5]
    · by_cases h7 : r7 > 0
      · simp [h3, h5, h7]
      · by_cases h11 : r11 > 0
        · simp [h3, h5, h7, h11]
        · simp [h3, h5, h7, h11]

theorem exclusiveStep_ex3 (t : Tables) (r3 r5 r7 r11 : Int) :
    (exclusiveStep t r3 r5 r7 r11).ex3 =
      if 0 < r3 then updateExclusive t.ex3 r3 r5 else t.ex3 := by
  unfold exclusiveStep
  by_cases h3 : r3 > 0
  · simp [h3]
  · by_cases h5 : r5 > 0
    · simp [h3, h5]
    · by_cases h7 : r7 > 0
      · simp [h3, h5, h7]
      · by_cases h11 : r11 > 0
        · simp [h3, h5, h7, h11]
        · simp [h3, h5, h7, h11]

theorem updateExclusive_no_ratio (s : Stats) (rc r5 : Int) (h5 : ¬ 0 < r5) :
    (updateExclusive s rc r5).ratioCount = s.ratioCount ∧
      (updateExclusive s rc r5).ratioToR5Sum = s.ratioToR5Sum := by
  simp [updateExclusive, h5]

theorem updateExclusive_count_le (s : Stats) (rc r5 : Int) (hrc : 0 < rc)
    (h : 0 ≤ s.count ∧ s.count ≤ s.total) :
    0 ≤ (updateExclusive s rc r5).count ∧
      (updateExclusive s rc r5).count ≤ (updateExclusive s rc r5).total := by
  unfold updateExclusive
  by_cases h5 : r5 > 0
  · simp only [h5, if_true]
    constructor <;> omega
  · simp only [h5, if_false]
    constructor <;> omega

theorem updateTotal_count_le (s : Stats) (rc r5 : Int) (hrc : 0 ≤ rc)
    (h : 0 ≤ s.count ∧ s.count ≤ s.total) :
    0 ≤ (updateTotal s rc r5).count ∧
      (updateTotal s rc r5).count ≤ (updateTotal s rc r5).total := by
  unfold updateTotal
  by_cases h5 : r5 > 0 <;> by_cases h0 : rc > 0
  · simp only [h5, h0, if_true]
    constructor <;> omega
  · simp only [h5, h0, if_true, if_false]
    constructor <;> omega
  · simp only [h5, h0, if_true, if_false]
    constructor <;> omega
  · simp only [h5, h0, if_false]
    constructor <;> omega

theorem countWithinTotal_of_le (s : Stats) (h : 0 ≤ s.count ∧ s.count ≤ s.total) :
    CountWithinTotal s := by
  refine ⟨h.1, h.2, ?_⟩
  unfold avgRepresentations
  by_cases hc : s.count > 0
  · right
    simp only [hc, if_true]
    have hpos : (0 : ℚ) < (s.count : ℚ) := by exact_mod_cast hc
    rw [one_le_div hpos]
    exact_mod_cast h.2
  · left
    simp only [hc, if_false]

theorem analyzeStep_ex3_tot3 (S : List Int) (t : Tables) (n : Int) :
    (analyzeStep S t n).ex3.count - (analyzeStep S t n).tot3.count =
        t.ex3.count - t.tot3.count ∧
      (analyzeStep S t n).ex3.total - (analyzeStep S t n).tot3.total =
        t.ex3.total - t.tot3.total ∧
      (analyzeStep S t n).ex3.ratioToR5Sum - (analyzeStep S t n).tot3.ratioToR5Sum =
        t.ex3.ratioToR5Sum - t.tot3.ratioToR5Sum ∧
      (analyzeStep S t n).tot3.ratioCount - (analyzeStep S t n).ex3.ratioCount =
        t.tot3.ratioCount - t.ex3.ratioCount +
          (if repCount S 3 n = 0 ∧ 0 < repCount S 5 n then 1 else 0) := by
  have h0 := repCount_nonneg S 3 n
  rw [(analyzeStep_ex S t n).1, exclusiveStep_ex3, (analyzeStep_tot S t n).1]
  by_cases h3 : 0 < repCount S 3 n
  · have hne : ¬ repCount S 3 n = 0 := by omega
    by_cases h5 : 0 < repCount S 5 n
    · simp only [h3, h5, hne, if_true, false_and, if_false, updateExclusive, updateTotal,
        gt_iff_lt]
      refine ⟨by omega, by omega, by ring, by omega⟩
    · simp only [h3, h5, hne, if_true, false_and, if_false, updateExclusive, updateTotal,
        gt_iff_lt, and_false]
      refine ⟨by omega, by omega, trivial, by omega⟩
  · have hz : repCount S 3 n = 0 := by omega
    rw [hz]
    by_cases h5 : 0 < repCount S 5 n
    · simp [h5, updateTotal]
      omega
    · simp [h5, updateTotal]

theorem foldl_ex3_tot3 (S : List Int) :
    ∀ (numbers : List Int) (t : Tables),
      (numbers.foldl (analyzeStep S) t).ex3.count - (numbers.foldl (analyzeStep S) t).tot3.count =
        t.ex3.count - t.tot3.count ∧
      (numbers.foldl (analyzeStep S) t).ex3.total - (numbers.foldl (analyzeStep S) t).tot3.total =
        t.ex3.total - t.tot3.total ∧
      (numbers.foldl (analyzeStep S) t).ex3.ratioToR5Sum -
          (numbers.foldl (analyzeStep S) t).tot3.ratioToR5Sum =
        t.ex3.ratioToR5Sum - t.tot3.ratioToR5Sum ∧
      (numbers.foldl (analyzeStep S) t).tot3.ratioCount -
          (numbers.foldl (analyzeStep S) t).ex3.ratioCount =
        t.tot3.ratioCount - t.ex3.ratioCount +
          ((numbers.filter
            (fun n => decide (repCount S 3 n = 0 ∧ 0 < repCount S 5 n))).length : Int) := by
  intro numbers
  induction numbers with
  | nil => intro t; simp
  | cons n rest ih =>
    intro t
    simp only [List.foldl_cons]
    obtain ⟨h1, h2, h3, h4⟩ := ih (analyzeStep S t n)
    obtain ⟨s1, s2, s3, s4⟩ := analyzeStep_ex3_tot3 S t n
    refine ⟨by rw [h1, s1], by rw [h2, s2], by rw [h3, s3], ?_⟩
    rw [h4, s4]
    by_cases hc : repCount S 3 n = 0 ∧ 0 < repCount S 5 n
    · simp only [hc, and_self, if_true, List.filter_cons, decide_True, List.length_cons]
      push_cast
      ring
    · simp only [hc, if_false, List.filter_cons, decide_False]
      simp

/-! ## The number sequences of `main` -/

theorem selectLoop_spec (choice : Int) (S : List Int) (hi : Int) :
    ∀ (fuel : Nat) (n : Int), (hi + 1 - n).toNat ≤ fuel →
      ∃ out, selectLoop choice S hi fuel n = some out ∧
        (∀ m, m ∈ out ↔ (n ≤ m ∧ m ≤ hi ∧ (m - n) % 2 = 0) ∧
          ((choice = 1 ∧ m ∈ S) ∨ (choice = 2 ∧ ¬ m ∈ S) ∨ choice = 3)) ∧
        List.Pairwise (fun x y => x < y) out := by
  intro fuel
  induction fuel with
  | zero =>
    intro n hf
    have hn : ¬ n ≤ hi := by omega
    refine ⟨[], by simp [selectLoop, hn], fun m => ?_, List.Pairwise.nil⟩
    constructor
    · intro h
      simp at h
    · rintro ⟨⟨h1, h2, _⟩, _⟩
      omega
  | succ fuel ih =>
    intro n hf
    by_cases hn : n ≤ hi
    · obtain ⟨rest, hrest, hmem, hsorted⟩ := ih (n + 2) (by omega)
      have hgt : ∀ m ∈ rest, n < m := by
        intro m hm
        have := ((hmem m).mp hm).1.1
        omega
      by_cases hc : (choice = 1 ∧ n ∈ S) ∨ (choice = 2 ∧ ¬ n ∈ S) ∨ choice = 3
      · refine ⟨n :: rest, by simp only [selectLoop, if_pos hn, hrest, if_pos hc], fun m => ?_,
          List.pairwise_cons.mpr ⟨hgt, hsorted⟩⟩
        rw [List.mem_cons, hmem m]
        constructor
        · rintro (rfl | ⟨⟨h1, h2, h3⟩, h4⟩)
          · exact ⟨⟨le_refl _, hn, by omega⟩, hc⟩
          · exact ⟨⟨by omega, h2, by omega⟩, h4⟩
        · rintro ⟨⟨h1, h2, h3⟩, h4⟩
          by_cases hmn : m = n
          · exact Or.inl hmn
          · exact Or.inr ⟨⟨by omega, h2, by omega⟩, h4⟩
      · refine ⟨rest, by simp only [selectLoop, if_pos hn, hrest, if_neg hc], fun m => ?_,
          hsorted⟩
        rw [hmem m]
        constructor
        · rintro ⟨⟨h1, h2, h3⟩, h4⟩
          exact ⟨⟨by omega, h2, by omega⟩, h4⟩
        · rintro ⟨⟨h1, h2, h3⟩, h4⟩
          have hmn : m ≠ n := by
            rintro rfl
            exact hc h4
          exact ⟨⟨by omega, h2, by omega⟩, h4⟩
    · refine ⟨[], by simp [selectLoop, hn], fun m => ?_, List.Pairwise.nil⟩
      constructor
      · intro h
        simp at h
      · rintro ⟨⟨h1, h2, _⟩, _⟩
        omega

theorem splitLoop_eq_selectLoop (S : List Int) (hi : Int) :
    ∀ (fuel : Nat) (n : Int), (hi + 1 - n).toNat ≤ fuel →
      ∃ P C A, selectLoop 1 S hi fuel n = some P ∧ selectLoop 2 S hi fuel n = some C ∧
        selectLoop 3 S hi fuel n = some A ∧ splitLoop S hi fuel n = some (P, C, A) := by
  intro fuel
  induction fuel with
  | zero =>
    intro n hf
    have hn : ¬ n ≤ hi := by omega
    exact ⟨[], [], [], by simp [selectLoop, hn], by simp [selectLoop, hn],
      by simp [selectLoop, hn], by simp [splitLoop, hn]⟩
  | succ fuel ih =>
    intro n hf
    by_cases hn : n ≤ hi
    · obtain ⟨P, C, A, hP, hC, hA, hsplit⟩ := ih (n + 2) (by omega)
      by_cases hmem : n ∈ S
      · exact ⟨n :: P, C, n :: A, by simp [selectLoop, hn, hP, hmem],
          by simp [selectLoop, hn, hC, hmem], by simp [selectLoop, hn, hA],
          by simp [splitLoop, hn, hsplit, hmem]⟩
      · exact ⟨P, n :: C, n :: A, by simp [selectLoop, hn, hP, hmem],
          by simp [selectLoop, hn, hC, hmem], by simp [selectLoop, hn, hA],
          by simp [splitLoop, hn, hsplit, hmem]⟩
    · exact ⟨[], [], [], by simp [selectLoop, hn], by simp [selectLoop, hn],
        by simp [selectLoop, hn], by simp [splitLoop, hn]⟩

/-- The sequences of both modes over a set `S` that holds exactly the primes of
`[plo, phi]`, whatever its iteration order. -/
theorem sequences_spec (plo phi : Nat) (lo hi : Int) (hlo : (plo : Int) ≤ lo)
    (hhi : hi ≤ (phi : Int)) (S : List Int)
    (hS : ∀ z : Int, z ∈ S ↔ (plo : Int) ≤ z ∧ z ≤ (phi : Int) ∧ Nat.Prime z.toNat) :
    ∃ P C A, splitNumbers S lo hi = some (P, C, A) ∧
      selectNumbers 1 S lo hi = some P ∧
      selectNumbers 2 S lo hi = some C ∧
      selectNumbers 3 S lo hi = some A ∧
      List.Pairwise (fun x y => x < y) P ∧ List.Pairwise (fun x y => x < y) C ∧
      List.Pairwise (fun x y => x < y) A ∧
      (∀ m, m ∈ A ↔ lo ≤ m ∧ m ≤ hi ∧ (m - lo) % 2 = 0) ∧
      (∀ m, m ∈ P ↔ (lo ≤ m ∧ m ≤ hi ∧ (m - lo) % 2 = 0) ∧ Nat.Prime m.toNat) ∧
      (∀ m, m ∈ C ↔ (lo ≤ m ∧ m ≤ hi ∧ (m - lo) % 2 = 0) ∧ ¬ Nat.Prime m.toNat) := by
  obtain ⟨P, C, A, hP, hC, hA, hsplit⟩ :=
    splitLoop_eq_selectLoop S hi (hi + 1 - lo).toNat lo (le_refl _)
  obtain ⟨P', hP', hPmem, hPs⟩ := selectLoop_spec 1 S hi (hi + 1 - lo).toNat lo (le_refl _)
  obtain ⟨C', hC', hCmem, hCs⟩ := selectLoop_spec 2 S hi (hi + 1 - lo).toNat lo (le_refl _)
  obtain ⟨A', hA', hAmem, hAs⟩ := selectLoop_spec 3 S hi (hi + 1 - lo).toNat lo (le_refl _)
  have eP : P' = P := Option.some.inj (hP'.symm.trans hP)
  have eC : C' = C := Option.some.inj (hC'.symm.trans hC)
  have eA : A' = A := Option.some.inj (hA'.symm.trans hA)
  subst eP eC eA
  refine ⟨P', C', A', hsplit, hP, hC, hA, hPs, hCs, hAs, fun m => ?_, fun m => ?_, fun m => ?_⟩
  · rw [hAmem m]
    constructor
    · rintro ⟨h, _⟩
      exact h
    · intro h
      exact ⟨h, Or.inr (Or.inr rfl)⟩
  · rw [hPmem m, hS]
    constructor
    · rintro ⟨h, (⟨_, _, _, hp⟩ | ⟨h2, _⟩ | h3)⟩
      · exact ⟨h, hp⟩
      · exact absurd h2 (by decide)
      · exact absurd h3 (by decide)
    · rintro ⟨h, hp⟩
      exact ⟨h, Or.inl ⟨rfl, by omega, by omega, hp⟩⟩
  · rw [hCmem m, hS]
    constructor
    · rintro ⟨h, (⟨h1, _⟩ | ⟨_, hn⟩ | h3)⟩
      · exact absurd h1 (by decide)
      · refine ⟨h, fun hp => hn ⟨by omega, by omega, hp⟩⟩
      · exact absurd h3 (by decide)
    · rintro ⟨h, hp⟩
      exact ⟨h, Or.inr (Or.inl ⟨rfl, fun hm => hp hm.2.2⟩)⟩

/-! ## The prime set of `main` in any iteration order -/

theorem mainList_nodup (lo hi : Nat) : ((primesBetween lo hi).map Int.ofNat).Nodup :=
  List.Pairwise.imp (fun h => ne_of_lt h) (mainList_sorted lo hi)

theorem isMainPrimeSet_iff (S : List Int) :
    IsMainPrimeSet S ↔ S.Perm ((primesBetween 9 1000000).map Int.ofNat) := by
  unfold IsMainPrimeSet IsSetOf
  constructor
  · rintro ⟨allPrimes, hall, hperm⟩
    rw [mainAllPrimes_eq] at hall
    have e : primesBetween 9 1000000 = allPrimes := Option.some.inj hall
    rw [← e, (mainList_nodup 9 1000000).dedup] at hperm
    exact hperm
  · intro hperm
    refine ⟨_, mainAllPrimes_eq, ?_⟩
    rw [(mainList_nodup 9 1000000).dedup]
    exact hperm

theorem isMainPrimeSet_ascending : IsMainPrimeSet ((primesBetween 9 1000000).map Int.ofNat) :=
  (isMainPrimeSet_iff _).mpr (List.Perm.refl _)

theorem isMainPrimeSet_mem (S : List Int) (h : IsMainPrimeSet S) (z : Int) :
    z ∈ S ↔ 9 ≤ z ∧ z ≤ 1000000 ∧ Nat.Prime z.toNat := by
  rw [((isMainPrimeSet_iff S).mp h).mem_iff, mem_mainList]
  norm_num

theorem fullScanCount_eq_of_pos (n c : Int) (S : List Int) (hpos : ∀ p ∈ S, 0 < p) :
    fullScanCount n c S =
      (S.filter (fun p => decide (p ≤ (n - c) - p ∧ (n - c) - p ∈ S))).length := by
  unfold fullScanCount
  congr 1
  apply List.filter_congr
  intro p hp
  simp only [le_tdiv_two_iff (n - c) p (hpos p hp)]

theorem pairFilter_length_perm (target : Int) (S L : List Int) (h : S.Perm L) :
    (S.filter (fun p => decide (p ≤ target - p ∧ target - p ∈ S))).length =
      (L.filter (fun p => decide (p ≤ target - p ∧ target - p ∈ L))).length := by
  have hfun : (fun p => decide (p ≤ target - p ∧ target - p ∈ S)) =
      (fun p => decide (p ≤ target - p ∧ target - p ∈ L)) := by
    funext p
    simp only [h.mem_iff]
  rw [hfun]
  exact (h.filter _).length_eq

/-- In any iteration order of the primes of `[lo, hi]` the counter returns at most the
number of prime pairs `(p, q)` with `lo ≤ p ≤ q` and `p + q = n - c`. -/
theorem countRepresentations_perm_le (lo hi : Nat) (n c : Int) (hhi : n - c ≤ (hi : Int))
    (S : List Int) (hperm : S.Perm ((primesBetween lo hi).map Int.ofNat)) :
    countRepresentations n c S ≤ pairsFrom lo (n - c) := by
  have hpos : ∀ p ∈ S, 0 < p := fun p hp => mainList_pos lo hi p (hperm.mem_iff.mp hp)
  have h1 := countRepresentations_le_fullScan n c S
  rw [fullScanCount_eq_of_pos n c S hpos, pairFilter_length_perm (n - c) S _ hperm,
    ← countRepresentations_eq n c _ (mainList_sorted lo hi) (mainList_pos lo hi),
    countRepresentations_primesBetween lo hi n c hhi] at h1
  exact h1

/-- In an ascending iteration order of the primes of `[lo, hi]` the counter returns the
number of prime pairs `(p, q)` with `lo ≤ p ≤ q` and `p + q = n - c`. -/
theorem countRepresentations_perm_sorted (lo hi : Nat) (n c : Int) (hhi : n - c ≤ (hi : Int))
    (S : List Int) (hperm : S.Perm ((primesBetween lo hi).map Int.ofNat))
    (hsorted : List.Pairwise (fun x y => x < y) S) :
    countRepresentations n c S = pairsFrom lo (n - c) := by
  have hpos : ∀ p ∈ S, 0 < p := fun p hp => mainList_pos lo hi p (hperm.mem_iff.mp hp)
  rw [countRepresentations_eq n c S hsorted hpos, pairFilter_length_perm (n - c) S _ hperm,
    ← countRepresentations_eq n c _ (mainList_sorted lo hi) (mainList_pos lo hi),
    countRepresentations_primesBetween lo hi n c hhi]

/-- C1, counterexample: for `n = 11`, `c = 5` the count over the program's prime set is `0`
in every iteration order, while the brute-force number of prime pairs summing to
`11 - 5 = 6` is `1` (`3 + 3`). -/
theorem countRepresentations_main_misses_small_primes :
    (∃ S, IsMainPrimeSet S) ∧ (∀ S, IsMainPrimeSet S → countRepresentations 11 5 S = 0) ∧
      bruteForcePairs (11 - 5) = 1 := by
  refine ⟨⟨_, isMainPrimeSet_ascending⟩, fun S hS => ?_, by decide⟩
  have h := countRepresentations_perm_le 9 1000000 11 5 (by norm_num) S
    ((isMainPrimeSet_iff S).mp hS)
  have e : pairsFrom 9 (11 - 5) = 0 := by decide
  omega

/-- C1, amended: for every odd `n` with `9 ≤ n ≤ 1000000` and every `c` in `{3, 5, 7, 11}`,
`countRepresentations(n, c, S)` over the program's prime set `S`, when `S` is iterated in
ascending order, equals the brute-force number of pairs `(p, q)` of primes with
`9 ≤ p ≤ q` and `p + q = n - c`; in any iteration order it is at most that number. -/
theorem countRepresentations_main_eq_pairsFrom (n c : Int) (_hodd : n % 2 = 1) (_h9 : 9 ≤ n)
    (hmax : n ≤ 1000000) (hc : c = 3 ∨ c = 5 ∨ c = 7 ∨ c = 11) :
    (∃ S, IsMainPrimeSet S ∧ List.Pairwise (fun x y => x < y) S) ∧
      ∀ S, IsMainPrimeSet S →
        (List.Pairwise (fun x y => x < y) S →
          countRepresentations n c S = pairsFrom 9 (n - c)) ∧
        countRepresentations n c S ≤ pairsFrom 9 (n - c) := by
  have hhi : n - c ≤ ((1000000 : Nat) : Int) := by
    push_cast
    omega
  refine ⟨⟨_, isMainPrimeSet_ascending, mainList_sorted 9 1000000⟩, fun S hS => ⟨fun hsorted => ?_, ?_⟩⟩
  · exact countRepresentations_perm_sorted 9 1000000 n c hhi S ((isMainPrimeSet_iff S).mp hS)
      hsorted
  · exact countRepresentations_perm_le 9 1000000 n c hhi S ((isMainPrimeSet_iff S).mp hS)

/-- C1, amended, at `n = 25`, `c = 3`: the brute-force number is `1` (`22 = 11 + 11`). -/
theorem countRepresentations_main_eq_pairsFrom_witness :
    ((∃ S, IsMainPrimeSet S ∧ List.Pairwise (fun x y => x < y) S) ∧
      ∀ S, IsMainPrimeSet S →
        (List.Pairwise (fun x y => x < y) S →
          countRepresentations 25 3 S = pairsFrom 9 (25 - 3)) ∧
        countRepresentations 25 3 S ≤ pairsFrom 9 (25 - 3)) ∧
      pairsFrom 9 (25 - 3) = 1 :=
  ⟨countRepresentations_main_eq_pairsFrom 25 3 (by decide) (by decide) (by decide)
    (Or.inl rfl), by decide⟩

/-- C2: for `2 ≤ low ≤ high` and a list `basePrimes` of primes that contains every prime
`p` with `p * p ≤ high`, `segmentedSieve(low, high, basePrimes)` returns, in strictly
ascending order, exactly the primes `m` with `low ≤ m ≤ high`. -/
theorem segmentedSieve_correct (low high : Nat) (basePrimes : List Nat) (_h2 : 2 ≤ low)
    (hle : low ≤ high) (hprime : ∀ p ∈ basePrimes, Nat.Prime p)
    (hcover : ∀ p, Nat.Prime p → p * p ≤ high → p ∈ basePrimes) :
    ∃ out, segmentedSieve low high basePrimes = some out ∧
      List.Pairwise (fun x y => x < y) out ∧
      ∀ m, m ∈ out ↔ low ≤ m ∧ m ≤ high ∧ Nat.Prime m :=
  ⟨primesBetween low high,
    segmentedSieve_eq low high basePrimes (by omega) hprime hcover,
    primesBetween_sorted low high, mem_primesBetween low high⟩

/-- C2 at `low = 9`, `high = 9999`, with the 25 primes below 100 as base primes. -/
theorem segmentedSieve_correct_witness :
    ∃ out, segmentedSieve 9 9999
        [2, 3, 5, 7, 11, 13, 17, 19, 23, 29, 31, 37, 41, 43, 47, 53, 59, 61, 67, 71, 73, 79,
          83, 89, 97] = some out ∧
      List.Pairwise (fun x y => x < y) out ∧
      ∀ m, m ∈ out ↔ 9 ≤ m ∧ m ≤ 9999 ∧ Nat.Prime m :=
  segmentedSieve_correct 9 9999 _ (by decide) (by decide)
    (by
      intro p hp
      simp only [List.mem_cons, List.mem_singleton, List.not_mem_nil, or_false] at hp
      rcases hp with h | h | h | h | h | h | h | h | h | h | h | h | h | h | h | h | h | h |
        h | h | h | h | h | h | h <;> subst h <;> norm_num)
    (by
      intro p hp hsq
      have hlt : p < 100 := by nlinarith
      interval_cases p <;> first
        | decide
        | (exfalso; revert hp; norm_num))

/-- C3: for every `limit ≥ 0`, `generateBasePrimes(limit)` returns (every array access
being inside the sieve array of `root + 1` entries, that is in `[0, root]`), in strictly
ascending order, exactly the primes `p ≤ root`, where `root = floor(sqrt(limit)) + 1`. -/
theorem generateBasePrimes_correct (limit : Nat) :
    ∃ out, generateBasePrimes limit = some out ∧
      List.Pairwise (fun x y => x < y) out ∧
      ∀ p, p ∈ out ↔ Nat.Prime p ∧ p ≤ Nat.sqrt limit + 1 := by
  refine ⟨_, generateBasePrimes_eq limit, primesBetween_sorted _ _, fun p => ?_⟩
  rw [mem_primesBetween]
  constructor
  · rintro ⟨_, h2, h3⟩
    exact ⟨h3, h2⟩
  · rintro ⟨h1, h2⟩
    exact ⟨h1.two_le, h2, h1⟩

set_option maxRecDepth 100000 in
theorem primesUpToSqrt_1009 :
    primesUpToSqrt 1009 = [2, 3, 5, 7, 11, 13, 17, 19, 23, 29, 31] := by
  decide

/-- C4, counterexample: `generateBasePrimes(100)` is `2, 3, 5, 7, 11`, while the
trial-division list of the primes `p` with `p * p ≤ 100` is `2, 3, 5, 7`. -/
theorem generateBasePrimes_100_has_11 :
    generateBasePrimes 100 = some [2, 3, 5, 7, 11] ∧ primesUpToSqrt 100 = [2, 3, 5, 7] := by
  have h : Nat.sqrt 100 = 10 := by norm_num [Nat.sqrt]
  refine ⟨?_, by decide⟩
  unfold generateBasePrimes
  rw [h]
  decide

/-- C4, amended: for every `limit ≥ 0`, `generateBasePrimes(limit)` is the ascending list
of all primes `p` with `p * p ≤ limit` or `p = floor(sqrt(limit)) + 1`; for `limit = 30`
and `limit = 1009` this is the trial-division list of the primes `p` with `p * p ≤ limit`,
for `limit = 100` it is that list followed by `11`. -/
theorem generateBasePrimes_eq_primes_upto_root :
    (∀ limit, ∃ out, generateBasePrimes limit = some out ∧
      List.Pairwise (fun x y => x < y) out ∧
      ∀ p, p ∈ out ↔ Nat.Prime p ∧ (p * p ≤ limit ∨ p = Nat.sqrt limit + 1)) ∧
    generateBasePrimes 30 = some (primesUpToSqrt 30) ∧
    generateBasePrimes 1009 = some (primesUpToSqrt 1009) ∧
    generateBasePrimes 100 = some (primesUpToSqrt 100 ++ [11]) := by
  refine ⟨fun limit => ⟨_, generateBasePrimes_eq limit, primesBetween_sorted _ _, fun p => ?_⟩,
    ?_, ?_, ?_⟩
  · rw [mem_primesBetween, ← Nat.le_sqrt]
    constructor
    · rintro ⟨_, h2, h3⟩
      exact ⟨h3, by omega⟩
    · rintro ⟨h1, h2⟩
      exact ⟨h1.two_le, by omega, h1⟩
  · have h : Nat.sqrt 30 = 5 := by norm_num [Nat.sqrt]
    have hs : primesUpToSqrt 30 = [2, 3, 5] := by decide
    unfold generateBasePrimes
    rw [h, hs]
    decide
  · have h : Nat.sqrt 1009 = 31 := by norm_num [Nat.sqrt]
    unfold generateBasePrimes
    rw [h, primesUpToSqrt_1009]
    decide
  · have h : Nat.sqrt 100 = 10 := by norm_num [Nat.sqrt]
    have hs : primesUpToSqrt 100 = [2, 3, 5, 7] := by decide
    unfold generateBasePrimes
    rw [h, hs]
    decide

/-- C5: for `2 ≤ low ≤ high` (`high` within `int` range) the output of
`generateBasePrimes(high)` is a list of primes that contains every prime `p` with
`p * p ≤ high`, and `segmentedSieve(low, high, generateBasePrimes(high))` is exactly the
ascending list of the primes in `[low, high]`; the vector `allPrimes` of the program is the
ascending list of the primes `p` with `9 ≤ p ≤ 1000000`, and the program's prime set, in
whatever order it is iterated, holds exactly these primes, once each. -/
theorem sieve_pipeline_correct (low high : Nat) (_h2 : 2 ≤ low) (hle : low ≤ high)
    (_hint : high < 2 ^ 31) :
    (∃ basePrimes out, generateBasePrimes high = some basePrimes ∧
      (∀ p ∈ basePrimes, Nat.Prime p) ∧
      (∀ p, Nat.Prime p → p * p ≤ high → p ∈ basePrimes) ∧
      segmentedSieve low high basePrimes = some out ∧
      List.Pairwise (fun x y => x < y) out ∧
      ∀ m, m ∈ out ↔ low ≤ m ∧ m ≤ high ∧ Nat.Prime m) ∧
    (∃ allPrimes, mainAllPrimes = some allPrimes ∧
      List.Pairwise (fun x y => x < y) allPrimes ∧
      ∀ m, m ∈ allPrimes ↔ 9 ≤ m ∧ m ≤ 1000000 ∧ Nat.Prime m) ∧
    (∃ S, IsMainPrimeSet S) ∧
    (∀ S, IsMainPrimeSet S →
      S.Nodup ∧ ∀ z : Int, z ∈ S ↔ 9 ≤ z ∧ z ≤ 1000000 ∧ Nat.Prime z.toNat) :=
  ⟨⟨primesBetween 2 (Nat.sqrt high + 1), primesBetween low high, generateBasePrimes_eq high,
      fun _ hp => ((mem_primesBetween _ _ _).mp hp).2.2,
      fun p hp hsq => basePrimes_cover high p hp hsq,
      sieve_pipeline_eq low high (by omega), primesBetween_sorted low high,
      mem_primesBetween low high⟩,
    ⟨_, mainAllPrimes_eq, primesBetween_sorted 9 1000000, mem_primesBetween 9 1000000⟩,
    ⟨_, isMainPrimeSet_ascending⟩,
    fun S hS => ⟨((isMainPrimeSet_iff S).mp hS).nodup_iff.mpr (mainList_nodup 9 1000000),
      isMainPrimeSet_mem S hS⟩⟩

/-- C5 at `low = 9`, `high = 100`. -/
theorem sieve_pipeline_correct_witness :
    (∃ basePrimes out, generateBasePrimes 100 = some basePrimes ∧
      (∀ p ∈ basePrimes, Nat.Prime p) ∧
      (∀ p, Nat.Prime p → p * p ≤ 100 → p ∈ basePrimes) ∧
      segmentedSieve 9 100 basePrimes = some out ∧
      List.Pairwise (fun x y => x < y) out ∧
      ∀ m, m ∈ out ↔ 9 ≤ m ∧ m ≤ 100 ∧ Nat.Prime m) ∧
    (∃ allPrimes, mainAllPrimes = some allPrimes ∧
      List.Pairwise (fun x y => x < y) allPrimes ∧
      ∀ m, m ∈ allPrimes ↔ 9 ≤ m ∧ m ≤ 1000000 ∧ Nat.Prime m) ∧
    (∃ S, IsMainPrimeSet S) ∧
    (∀ S, IsMainPrimeSet S →
      S.Nodup ∧ ∀ z : Int, z ∈ S ↔ 9 ≤ z ∧ z ≤ 1000000 ∧ Nat.Prime z.toNat) :=
  sieve_pipeline_correct 9 100 (by decide) (by decide) (by decide)

/-- C6: for a set `S` of positive integers iterated in ascending order and all integers
`n`, `c`, `countRepresentations(n, c, S)` equals the number of elements `p` of `S` with
`p ≤ target - p` and `target - p ∈ S`, where `target = n - c` (odd and negative targets
included). -/
theorem countRepresentations_eq_pair_count (S : List Int)
    (hsorted : List.Pairwise (fun x y => x < y) S) (hpos : ∀ p ∈ S, 0 < p) (n c : Int) :
    countRepresentations n c S =
      (S.filter (fun p => decide (p ≤ (n - c) - p ∧ (n - c) - p ∈ S))).length :=
  countRepresentations_eq n c S hsorted hpos

/-- C6 at `S = {3, 5, 7, 11, 13}`, `n = 21`, `c = 5`: the count is `2`
(`16 = 3 + 13 = 5 + 11`). -/
theorem countRepresentations_eq_pair_count_witness :
    countRepresentations 21 5 [3, 5, 7, 11, 13] =
        (([3, 5, 7, 11, 13] : List Int).filter
          (fun p => decide (p ≤ (21 - 5) - p ∧ (21 - 5) - p ∈ ([3, 5, 7, 11, 13] : List Int)))).length ∧
      countRepresentations 21 5 [3, 5, 7, 11, 13] = 2 :=
  ⟨countRepresentations_eq_pair_count [3, 5, 7, 11, 13] (by decide) (by decide) 21 5,
    by decide⟩

/-- C7: the exclusive step for one number with counts `(r3, r5, r7, r11)` changes only
the exclusive record of the first `c` in the order 3, 5, 7, 11 with `r_c > 0`: it adds 1 to
`count`, `r_c` to `total` and, exactly when `r5 > 0`, `r_c / r5` to `ratioToR5Sum` and 1 to
`ratioCount`; the other three exclusive records are unchanged, and all four are unchanged
when no count is positive. The loop body of `analyzeRange` applies this step to the four
counts of `n` and its total density step leaves the exclusive records alone. -/
theorem exclusiveStep_first_hit (t : Tables) (r3 r5 r7 r11 : Int) :
    (0 < r3 →
      IsExclusiveUpdate t.ex3 (exclusiveStep t r3 r5 r7 r11).ex3 r3 r5 ∧
      (exclusiveStep t r3 r5 r7 r11).ex5 = t.ex5 ∧
      (exclusiveStep t r3 r5 r7 r11).ex7 = t.ex7 ∧
      (exclusiveStep t r3 r5 r7 r11).ex11 = t.ex11) ∧
    (¬ 0 < r3 → 0 < r5 →
      IsExclusiveUpdate t.ex5 (exclusiveStep t r3 r5 r7 r11).ex5 r5 r5 ∧
      (exclusiveStep t r3 r5 r7 r11).ex3 = t.ex3 ∧
      (exclusiveStep t r3 r5 r7 r11).ex7 = t.ex7 ∧
      (exclusiveStep t r3 r5 r7 r11).ex11 = t.ex11) ∧
    (¬ 0 < r3 → ¬ 0 < r5 → 0 < r7 →
      IsExclusiveUpdate t.ex7 (exclusiveStep t r3 r5 r7 r11).ex7 r7 r5 ∧
      (exclusiveStep t r3 r5 r7 r11).ex3 = t.ex3 ∧
      (exclusiveStep t r3 r5 r7 r11).ex5 = t.ex5 ∧
      (exclusiveStep t r3 r5 r7 r11).ex11 = t.ex11) ∧
    (¬ 0 < r3 → ¬ 0 < r5 → ¬ 0 < r7 → 0 < r11 →
      IsExclusiveUpdate t.ex11 (exclusiveStep t r3 r5 r7 r11).ex11 r11 r5 ∧
      (exclusiveStep t r3 r5 r7 r11).ex3 = t.ex3 ∧
      (exclusiveStep t r3 r5 r7 r11).ex5 = t.ex5 ∧
      (exclusiveStep t r3 r5 r7 r11).ex7 = t.ex7) ∧
    (¬ 0 < r3 → ¬ 0 < r5 → ¬ 0 < r7 → ¬ 0 < r11 →
      (exclusiveStep t r3 r5 r7 r11).ex3 = t.ex3 ∧
      (exclusiveStep t r3 r5 r7 r11).ex5 = t.ex5 ∧
      (exclusiveStep t r3 r5 r7 r11).ex7 = t.ex7 ∧
      (exclusiveStep t r3 r5 r7 r11).ex11 = t.ex11) ∧
    (∀ (primeSet : List Int) (n : Int),
      (analyzeStep primeSet t n).ex3 =
        (exclusiveStep t (repCount primeSet 3 n) (repCount primeSet 5 n)
          (repCount primeSet 7 n) (repCount primeSet 11 n)).ex3 ∧
      (analyzeStep primeSet t n).ex5 =
        (exclusiveStep t (repCount primeSet 3 n) (repCount primeSet 5 n)
          (repCount primeSet 7 n) (repCount primeSet 11 n)).ex5 ∧
      (analyzeStep primeSet t n).ex7 =
        (exclusiveStep t (repCount primeSet 3 n) (repCount primeSet 5 n)
          (repCount primeSet 7 n) (repCount primeSet 11 n)).ex7 ∧
      (analyzeStep primeSet t n).ex11 =
        (exclusiveStep t (repCount primeSet 3 n) (repCount primeSet 5 n)
          (repCount primeSet 7 n) (repCount primeSet 11 n)).ex11) := by
  have hupd : ∀ (s : Stats) (rc : Int), IsExclusiveUpdate s (updateExclusive s rc r5) rc r5 := by
    intro s rc
    unfold IsExclusiveUpdate updateExclusive
    by_cases h5 : r5 > 0
    · simp [h5]
    · simp [h5]
  refine ⟨?_, ?_, ?_, ?_, ?_, fun primeSet n => analyzeStep_ex primeSet t n⟩
  · intro h3
    have e : exclusiveStep t r3 r5 r7 r11 = { t with ex3 := updateExclusive t.ex3 r3 r5 } := by
      simp [exclusiveStep, h3]
    rw [e]
    exact ⟨hupd _ _, rfl, rfl, rfl⟩
  · intro h3 h5
    have e : exclusiveStep t r3 r5 r7 r11 = { t with ex5 := updateExclusive t.ex5 r5 r5 } := by
      simp [exclusiveStep, h3, h5]
    rw [e]
    exact ⟨hupd _ _, rfl, rfl, rfl⟩
  · intro h3 h5 h7
    have e : exclusiveStep t r3 r5 r7 r11 = { t with ex7 := updateExclusive t.ex7 r7 r5 } := by
      simp [exclusiveStep, h3, h5, h7]
    rw [e]
    exact ⟨hupd _ _, rfl, rfl, rfl⟩
  · intro h3 h5 h7 h11
    have e : exclusiveStep t r3 r5 r7 r11 =
        { t with ex11 := updateExclusive t.ex11 r11 r5 } := by
      simp [exclusiveStep, h3, h5, h7, h11]
    rw [e]
    exact ⟨hupd _ _, rfl, rfl, rfl⟩
  · intro h3 h5 h7 h11
    have e : exclusiveStep t r3 r5 r7 r11 = t := by
      simp [exclusiveStep, h3, h5, h7, h11]
    rw [e]
    exact ⟨rfl, rfl, rfl, rfl⟩

/-- C8: after `analyzeRange` has processed a number sequence, the total-density record of
each `c` in `{3, 5, 7, 11}` has `count` = the number of `n` with `r_c(n) > 0`, `total` = the
sum of `r_c(n)`, `ratioCount` = the number of `n` with `r5(n) > 0` and `ratioToR5Sum` = the
sum of `r_c(n) / r5(n)` over the `n` with `r5(n) > 0`: each record depends on its own
counts and on `r5` only. -/
theorem analyzeRange_total_records (numbers : List Int) (primeSet : List Int) :
    IsTotalDensityRecord (analyzeRange numbers primeSet).tot3 numbers
        (repCount primeSet 3) (repCount primeSet 5) ∧
      IsTotalDensityRecord (analyzeRange numbers primeSet).tot5 numbers
        (repCount primeSet 5) (repCount primeSet 5) ∧
      IsTotalDensityRecord (analyzeRange numbers primeSet).tot7 numbers
        (repCount primeSet 7) (repCount primeSet 5) ∧
      IsTotalDensityRecord (analyzeRange numbers primeSet).tot11 numbers
        (repCount primeSet 11) (repCount primeSet 5) := by
  have key : ∀ (proj : Tables → Stats) (rc : Int → Int), proj {} = {} →
      (∀ t n, proj (analyzeStep primeSet t n) =
        updateTotal (proj t) (rc n) (repCount primeSet 5 n)) →
      IsTotalDensityRecord (proj (analyzeRange numbers primeSet)) numbers rc
        (repCount primeSet 5) := by
    intro proj rc h0 hstep
    unfold analyzeRange
    rw [foldl_view_total proj rc (repCount primeSet 5) (analyzeStep primeSet) hstep numbers {}]
    have h := foldl_updateTotal rc (repCount primeSet 5) numbers (proj {})
    rw [h0] at h ⊢
    simpa [IsTotalDensityRecord] using h
  exact ⟨key (fun t => t.tot3) _ rfl (fun t n => (analyzeStep_tot primeSet t n).1),
    key (fun t => t.tot5) _ rfl (fun t n => (analyzeStep_tot primeSet t n).2.1),
    key (fun t => t.tot7) _ rfl (fun t n => (analyzeStep_tot primeSet t n).2.2.1),
    key (fun t => t.tot11) _ rfl (fun t n => (analyzeStep_tot primeSet t n).2.2.2)⟩

/-- C9, counterexample: no sequence of `updateExclusive` calls on a record that starts at
zero ends with `ratioCount > count`: every call adds 1 to `count` and at most 1 to
`ratioCount`. -/
theorem updateExclusive_ratioCount_never_exceeds_count :
    ¬ ∃ calls : List (Int × Int),
      (calls.foldl (fun s rr => updateExclusive s rr.1 rr.2) {}).ratioCount >
        (calls.foldl (fun s rr => updateExclusive s rr.1 rr.2) {}).count := by
  rintro ⟨calls, h⟩
  have := (foldl_updateExclusive_ratio_le calls {} ⟨le_refl _, le_refl _⟩).2
  omega

/-- C9, amended: in exclusive mode `ratioCount ≤ count` is guaranteed: after any sequence
of `updateExclusive` calls on a record that starts at zero, and for each of the four
exclusive records after `analyzeRange`, `0 ≤ ratioCount ≤ count`. It is in total-density
mode that the inequality can fail: for the sequence `11` and the set `{3}` the
total-density record of `c = 3` ends with `count = 0` and `ratioCount = 1`. -/
theorem exclusive_ratioCount_le_count :
    (∀ calls : List (Int × Int),
      0 ≤ (calls.foldl (fun s rr => updateExclusive s rr.1 rr.2) {}).ratioCount ∧
      (calls.foldl (fun s rr => updateExclusive s rr.1 rr.2) {}).ratioCount ≤
        (calls.foldl (fun s rr => updateExclusive s rr.1 rr.2) {}).count) ∧
    (∀ (numbers primeSet : List Int),
      (0 ≤ (analyzeRange numbers primeSet).ex3.ratioCount ∧
        (analyzeRange numbers primeSet).ex3.ratioCount ≤
          (analyzeRange numbers primeSet).ex3.count) ∧
      (0 ≤ (analyzeRange numbers primeSet).ex5.ratioCount ∧
        (analyzeRange numbers primeSet).ex5.ratioCount ≤
          (analyzeRange numbers primeSet).ex5.count) ∧
      (0 ≤ (analyzeRange numbers primeSet).ex7.ratioCount ∧
        (analyzeRange numbers primeSet).ex7.ratioCount ≤
          (analyzeRange numbers primeSet).ex7.count) ∧
      (0 ≤ (analyzeRange numbers primeSet).ex11.ratioCount ∧
        (analyzeRange numbers primeSet).ex11.ratioCount ≤
          (analyzeRange numbers primeSet).ex11.count)) ∧
    ((analyzeRange [11] [3]).tot3.count = 0 ∧ (analyzeRange [11] [3]).tot3.ratioCount = 1) := by
  refine ⟨fun calls => foldl_updateExclusive_ratio_le calls {} ⟨le_refl _, le_refl _⟩,
    fun numbers primeSet => ?_, by decide⟩
  have key : ∀ (proj : Tables → Stats), proj {} = {} →
      (∀ t n, proj (analyzeStep primeSet t n) = proj t ∨
        ∃ rc r5, proj (analyzeStep primeSet t n) = updateExclusive (proj t) rc r5) →
      0 ≤ (proj (analyzeRange numbers primeSet)).ratioCount ∧
        (proj (analyzeRange numbers primeSet)).ratioCount ≤
          (proj (analyzeRange numbers primeSet)).count := by
    intro proj h0 hstep
    unfold analyzeRange
    apply foldl_view_invariant proj (analyzeStep primeSet)
      (fun s => 0 ≤ s.ratioCount ∧ s.ratioCount ≤ s.count)
    · intro t n h
      rcases hstep t n with e | ⟨rc, r5, e⟩
      · rw [e]; exact h
      · rw [e]; exact updateExclusive_ratio_le _ rc r5 h
    · rw [h0]
      exact ⟨le_refl _, le_refl _⟩
  refine ⟨key (fun t => t.ex3) rfl (fun t n => ?_), key (fun t => t.ex5) rfl (fun t n => ?_),
    key (fun t => t.ex7) rfl (fun t n => ?_), key (fun t => t.ex11) rfl (fun t n => ?_)⟩
  · show (analyzeStep primeSet t n).ex3 = _ ∨ _
    rw [(analyzeStep_ex primeSet t n).1]
    rcases (exclusiveStep_cases t _ _ _ _).1 with e | e
    · exact Or.inl e
    · exact Or.inr ⟨_, _, e⟩
  · show (analyzeStep primeSet t n).ex5 = _ ∨ _
    rw [(analyzeStep_ex primeSet t n).2.1]
    rcases (exclusiveStep_cases t _ _ _ _).2.1 with e | ⟨_, e⟩
    · exact Or.inl e
    · exact Or.inr ⟨_, _, e⟩
  · show (analyzeStep primeSet t n).ex7 = _ ∨ _
    rw [(analyzeStep_ex primeSet t n).2.2.1]
    rcases (exclusiveStep_cases t _ _ _ _).2.2.1 with e | ⟨_, e⟩
    · exact Or.inl e
    · exact Or.inr ⟨_, _, e⟩
  · show (analyzeStep primeSet t n).ex11 = _ ∨ _
    rw [(analyzeStep_ex primeSet t n).2.2.2]
    rcases (exclusiveStep_cases t _ _ _ _).2.2.2 with e | ⟨_, e⟩
    · exact Or.inl e
    · exact Or.inr ⟨_, _, e⟩

/-- C10: when the exclusive step chooses `c = 5` it accrues the ratio `r5 / r5 = 1`; after
`analyzeRange` has processed any sequence, the exclusive record of `c = 5` has
`ratioToR5Sum = ratioCount = count`, so the average ratio the table shows for it is 1 when
its count is positive (and 0 otherwise). -/
theorem exclusive_ex5_ratio_is_one :
    (∀ (t : Tables) (r3 r5 r7 r11 : Int), ¬ 0 < r3 → 0 < r5 →
      (exclusiveStep t r3 r5 r7 r11).ex5.ratioToR5Sum = t.ex5.ratioToR5Sum + 1) ∧
    (∀ (numbers primeSet : List Int),
      (analyzeRange numbers primeSet).ex5.ratioToR5Sum =
          ((analyzeRange numbers primeSet).ex5.ratioCount : ℚ) ∧
        (analyzeRange numbers primeSet).ex5.ratioCount =
          (analyzeRange numbers primeSet).ex5.count ∧
        avgRatioToR5 (analyzeRange numbers primeSet).ex5 =
          if 0 < (analyzeRange numbers primeSet).ex5.count then 1 else 0) := by
  constructor
  · intro t r3 r5 r7 r11 h3 h5
    have hne : (r5 : ℚ) ≠ 0 := by
      have : r5 ≠ 0 := by omega
      exact_mod_cast this
    have e : exclusiveStep t r3 r5 r7 r11 = { t with ex5 := updateExclusive t.ex5 r5 r5 } := by
      simp [exclusiveStep, h3, h5]
    rw [e]
    simp [updateExclusive, h5, div_self hne]
  · intro numbers primeSet
    have hinv : (analyzeRange numbers primeSet).ex5.ratioToR5Sum =
          ((analyzeRange numbers primeSet).ex5.ratioCount : ℚ) ∧
        (analyzeRange numbers primeSet).ex5.ratioCount =
          (analyzeRange numbers primeSet).ex5.count := by
      unfold analyzeRange
      apply foldl_view_invariant (fun t => t.ex5) (analyzeStep primeSet)
        (fun s => s.ratioToR5Sum = (s.ratioCount : ℚ) ∧ s.ratioCount = s.count)
      · intro t n h
        show (analyzeStep primeSet t n).ex5.ratioToR5Sum = _ ∧ _
        rw [(analyzeStep_ex primeSet t n).2.1]
        rcases (exclusiveStep_cases t _ _ _ _).2.1 with e | ⟨h5, e⟩
        · rw [e]; exact h
        · rw [e]; exact updateExclusive_self _ _ h5 h
      · exact ⟨by simp, rfl⟩
    refine ⟨hinv.1, hinv.2, ?_⟩
    unfold avgRatioToR5
    rw [hinv.1, hinv.2]
    by_cases hc : 0 < (analyzeRange numbers primeSet).ex5.count
    · have hne : (((analyzeRange numbers primeSet).ex5.count : Int) : ℚ) ≠ 0 := by
        have : (analyzeRange numbers primeSet).ex5.count ≠ 0 := by omega
        exact_mod_cast this
      simp only [gt_iff_lt, hc, if_true]
      exact div_self hne
    · simp only [gt_iff_lt, hc, if_false]

/-! ## The claims, continued -/

/-- C11, counterexample: with the program's prime set, in every iteration order, the count
for `n = 11`, `c = 5` is not 1, and after the number 11 the exclusive record of `c = 5`
still has `count = 0`. -/
theorem count_11_5_is_not_one :
    (∃ S, IsMainPrimeSet S) ∧
      ∀ S, IsMainPrimeSet S → countRepresentations 11 5 S ≠ 1 ∧
        (analyzeRange [11] S).ex5.count = 0 := by
  refine ⟨⟨_, isMainPrimeSet_ascending⟩, fun S hS => ?_⟩
  have h5 : countRepresentations 11 5 S = 0 := by
    have h := countRepresentations_perm_le 9 1000000 11 5 (by norm_num) S
      ((isMainPrimeSet_iff S).mp hS)
    have e5 : pairsFrom 9 (11 - 5) = 0 := by decide
    omega
  refine ⟨by omega, ?_⟩
  show (analyzeStep S {} 11).ex5.count = 0
  rw [(analyzeStep_ex S {} 11).2.1]
  rcases (exclusiveStep_cases {} (repCount S 3 11) (repCount S 5 11) (repCount S 7 11)
    (repCount S 11 11)).2.1 with e | ⟨hpos, _⟩
  · rw [e]
  · exfalso
    simp only [repCount, h5] at hpos
    omega

/-- C11, amended: for `n = 11` with the program's prime set `S`, in every iteration order,
`countRepresentations(11, c, S) = 0` for every `c` in `{3, 5, 7, 11}` (`S` has no prime
below 11, so `6 = 3 + 3` is not found), and the exclusive step for `n = 11` updates no
exclusive record. -/
theorem exclusive_step_for_11_updates_nothing :
    (∃ S, IsMainPrimeSet S) ∧
      ∀ S, IsMainPrimeSet S →
        countRepresentations 11 3 S = 0 ∧ countRepresentations 11 5 S = 0 ∧
        countRepresentations 11 7 S = 0 ∧ countRepresentations 11 11 S = 0 ∧
        ∀ t : Tables, (analyzeStep S t 11).ex3 = t.ex3 ∧ (analyzeStep S t 11).ex5 = t.ex5 ∧
          (analyzeStep S t 11).ex7 = t.ex7 ∧ (analyzeStep S t 11).ex11 = t.ex11 := by
  refine ⟨⟨_, isMainPrimeSet_ascending⟩, fun S hS => ?_⟩
  have hperm := (isMainPrimeSet_iff S).mp hS
  have b3 := countRepresentations_perm_le 9 1000000 11 3 (by norm_num) S hperm
  have b5 := countRepresentations_perm_le 9 1000000 11 5 (by norm_num) S hperm
  have b7 := countRepresentations_perm_le 9 1000000 11 7 (by norm_num) S hperm
  have b11 := countRepresentations_perm_le 9 1000000 11 11 (by norm_num) S hperm
  have e3 : pairsFrom 9 (11 - 3) = 0 := by decide
  have e5 : pairsFrom 9 (11 - 5) = 0 := by decide
  have e7 : pairsFrom 9 (11 - 7) = 0 := by decide
  have e11 : pairsFrom 9 (11 - 11) = 0 := by decide
  have h3 : countRepresentations 11 3 S = 0 := by omega
  have h5 : countRepresentations 11 5 S = 0 := by omega
  have h7 : countRepresentations 11 7 S = 0 := by omega
  have h11 : countRepresentations 11 11 S = 0 := by omega
  refine ⟨h3, h5, h7, h11, fun t => ?_⟩
  have hstep : exclusiveStep t 0 0 0 0 = t := by simp [exclusiveStep]
  have hex := analyzeStep_ex S t 11
  simp only [repCount, h3, h5, h7, h11, Nat.cast_zero, hstep] at hex
  exact hex

/-- C12: at the boundaries `n = 9` and `n = 999999`, for every `c` in `{3, 5, 7, 11}` and
every set `S` of positive integers (in any iteration order), `countRepresentations`
returns a count between 0 and the size of `S`; for `n = 9`, `c = 11` (target `-2`) it
returns 0. The function of the model is total: it returns for every input. -/
theorem countRepresentations_boundary (S : List Int) (hpos : ∀ p ∈ S, 0 < p) (n c : Int)
    (_hn : n = 9 ∨ n = 999999) (_hc : c = 3 ∨ c = 5 ∨ c = 7 ∨ c = 11) :
    0 ≤ (countRepresentations n c S : Int) ∧ countRepresentations n c S ≤ S.length ∧
      countRepresentations 9 11 S = 0 := by
  refine ⟨Int.ofNat_nonneg _,
    le_trans (countRepresentations_le_fullScan n c S) (fullScanCount_le_length n c S), ?_⟩
  cases S with
  | nil => rfl
  | cons p rest =>
    have hp : 0 < p := hpos p (List.mem_cons_self _ _)
    have ht : ((9 : Int) - 11).tdiv 2 = -1 := by decide
    have hbreak : p > ((9 : Int) - 11).tdiv 2 := by rw [ht]; omega
    simp only [countRepresentations, countLoop, if_pos hbreak]

/-- C12 at `S = {3, 5, 7}`, `n = 9`, `c = 11`. -/
theorem countRepresentations_boundary_witness :
    0 ≤ (countRepresentations 9 11 [3, 5, 7] : Int) ∧
      countRepresentations 9 11 [3, 5, 7] ≤ ([3, 5, 7] : List Int).length ∧
      countRepresentations 9 11 [3, 5, 7] = 0 :=
  countRepresentations_boundary [3, 5, 7] (by decide) 9 11 (Or.inl rfl)
    (Or.inr (Or.inr (Or.inr rfl)))

/-- C13: the sequences built by `main` over the program's prime set (in whatever order the
set is iterated) are ascending and partition the odd numbers: all-odds is exactly the odd
integers from 9 to 999999, primes-only exactly the primes among them, composites-only
exactly the non-primes among them; primes-only and composites-only are disjoint with union
all-odds, and mode 1 with choice 1, 2, 3 selects the same three sequences as mode 2
builds. -/
theorem main_sequences_partition_odds :
    (∃ S, IsMainPrimeSet S) ∧
      ∀ S, IsMainPrimeSet S →
        ∃ P C A, mainSequences S = some (P, C, A) ∧
          mainSelected 1 S = some P ∧ mainSelected 2 S = some C ∧ mainSelected 3 S = some A ∧
          List.Pairwise (fun x y => x < y) P ∧ List.Pairwise (fun x y => x < y) C ∧
          List.Pairwise (fun x y => x < y) A ∧
          (∀ m, m ∈ A ↔ 9 ≤ m ∧ m ≤ 999999 ∧ m % 2 = 1) ∧
          (∀ m, m ∈ P ↔ (9 ≤ m ∧ m ≤ 999999 ∧ m % 2 = 1) ∧ Nat.Prime m.toNat) ∧
          (∀ m, m ∈ C ↔ (9 ≤ m ∧ m ≤ 999999 ∧ m % 2 = 1) ∧ ¬ Nat.Prime m.toNat) ∧
          (∀ m, ¬ (m ∈ P ∧ m ∈ C)) ∧ (∀ m, m ∈ A ↔ m ∈ P ∨ m ∈ C) := by
  refine ⟨⟨_, isMainPrimeSet_ascending⟩, fun S hS => ?_⟩
  obtain ⟨P, C, A, hsplit, hP, hC, hA, hPs, hCs, hAs, hAmem, hPmem, hCmem⟩ :=
    sequences_spec 9 1000000 9 1000000 (by norm_num) (by norm_num) S (fun z => by
      rw [isMainPrimeSet_mem S hS z]
      norm_num)
  have hrange : ∀ m : Int, (9 ≤ m ∧ m ≤ 1000000 ∧ (m - 9) % 2 = 0) ↔
      (9 ≤ m ∧ m ≤ 999999 ∧ m % 2 = 1) := by
    intro m
    constructor <;> rintro ⟨h1, h2, h3⟩ <;> exact ⟨h1, by omega, by omega⟩
  refine ⟨P, C, A, hsplit, hP, hC, hA, hPs, hCs, hAs, fun m => ?_,
    fun m => ?_, fun m => ?_, fun m => ?_, fun m => ?_⟩
  · rw [hAmem m, hrange m]
  · rw [hPmem m, hrange m]
  · rw [hCmem m, hrange m]
  · rw [hPmem m, hCmem m]
    rintro ⟨⟨_, hp⟩, ⟨_, hn⟩⟩
    exact hn hp
  · rw [hAmem m, hPmem m, hCmem m]
    constructor
    · intro h
      by_cases hp : Nat.Prime m.toNat
      · exact Or.inl ⟨h, hp⟩
      · exact Or.inr ⟨h, hp⟩
    · rintro (⟨h, _⟩ | ⟨h, _⟩) <;> exact h

/-- C14: the early break is valid only for ascending iteration: for the set of primes
`{3, 5, 7}` iterated in the order `7, 3, 5` and `n = 13`, `c = 3` (target 10),
`countRepresentations` stops at the first element and returns 0, while the full scan with
the `p ≤ target / 2` filter counts 2 (`3 + 7` and `5 + 5`), as does the ascending order. -/
theorem early_break_needs_ascending_order :
    ∃ (S : List Int) (n c : Int), S.Nodup ∧ (∀ p ∈ S, Nat.Prime p.toNat) ∧
      ¬ List.Pairwise (fun x y => x < y) S ∧
      countRepresentations n c S ≠ fullScanCount n c S ∧
      countRepresentations n c [3, 5, 7] = fullScanCount n c S := by
  refine ⟨[7, 3, 5], 13, 3, by decide, ?_, by decide, by decide, by decide⟩
  intro p hp
  simp only [List.mem_cons, List.mem_singleton, List.not_mem_nil, or_false] at hp
  rcases hp with rfl | rfl | rfl
  · exact (by norm_num : Nat.Prime 7)
  · exact (by norm_num : Nat.Prime 3)
  · exact (by norm_num : Nat.Prime 5)

/-- C15: `segmentedSieve` does not check its coverage precondition: for every list
`basePrimes` of primes and every composite `m` with `2 ≤ low ≤ m ≤ high` none of whose
prime factors `p` with `p * p ≤ m` occurs in `basePrimes`, the function returns a list
(no error) and the list contains `m`. -/
theorem segmentedSieve_misclassifies_uncovered (low high m : Nat) (basePrimes : List Nat)
    (hprime : ∀ p ∈ basePrimes, Nat.Prime p) (_hcomp : 2 ≤ m ∧ ¬ Nat.Prime m)
    (_h2 : 2 ≤ low) (hlow : low ≤ m) (hhigh : m ≤ high)
    (hfree : ∀ p, Nat.Prime p → p ∣ m → p * p ≤ m → ¬ p ∈ basePrimes) :
    ∃ out, segmentedSieve low high basePrimes = some out ∧ m ∈ out := by
  obtain ⟨out, hout, hmem⟩ := segmentedSieve_general low high basePrimes (by omega)
    (fun p hp => (hprime p hp).pos)
  refine ⟨out, hout, (hmem m).mpr ⟨hlow, hhigh, by omega, fun p hp => ?_⟩⟩
  rintro ⟨k, hk⟩
  have hpp : Nat.Prime p := hprime p hp
  have hd2 := (start_props low p hpp.pos).2
  have hdvd : p ∣ m := by
    rw [hk]
    exact Dvd.dvd.add hd2 (Dvd.intro_left _ rfl)
  have hsq : p * p ≤ m := by
    have : p * p ≤ max (p * p) (((low + p - 1) / p) * p) := le_max_left _ _
    omega
  exact hfree p hpp hdvd hsq hp

/-- C15 at `low = 9`, `high = 30`, `basePrimes = [2, 3]`, `m = 25`: the output is
`11, 13, 17, 19, 23, 25, 29`. -/
theorem segmentedSieve_misclassifies_uncovered_witness :
    (∃ out, segmentedSieve 9 30 [2, 3] = some out ∧ 25 ∈ out) ∧
      segmentedSieve 9 30 [2, 3] = some [11, 13, 17, 19, 23, 25, 29] :=
  ⟨segmentedSieve_misclassifies_uncovered 9 30 25 [2, 3]
    (by
      intro p hp
      simp only [List.mem_cons, List.mem_singleton, List.not_mem_nil, or_false] at hp
      rcases hp with rfl | rfl <;> norm_num)
    ⟨by decide, by norm_num⟩ (by decide) (by decide) (by decide)
    (by
      intro p _ hdvd hsq hp
      simp only [List.mem_cons, List.mem_singleton, List.not_mem_nil, or_false] at hp
      rcases hp with rfl | rfl <;> omega),
    by decide⟩

/-- C17: for every number sequence and every prime set, the exclusive records of `c = 7`
and `c = 11` keep `ratioCount = 0` and `ratioToR5Sum = 0`: no exclusive step changes
these two fields (the two records are updated only when `r5 > 0` fails), so the average
ratio to `r5` the table shows for them is 0. -/
theorem exclusive_ex7_ex11_never_accrue_ratio :
    (∀ (t : Tables) (r3 r5 r7 r11 : Int),
      (exclusiveStep t r3 r5 r7 r11).ex7.ratioCount = t.ex7.ratioCount ∧
      (exclusiveStep t r3 r5 r7 r11).ex7.ratioToR5Sum = t.ex7.ratioToR5Sum ∧
      (exclusiveStep t r3 r5 r7 r11).ex11.ratioCount = t.ex11.ratioCount ∧
      (exclusiveStep t r3 r5 r7 r11).ex11.ratioToR5Sum = t.ex11.ratioToR5Sum) ∧
    (∀ (numbers primeSet : List Int),
      (analyzeRange numbers primeSet).ex7.ratioCount = 0 ∧
      (analyzeRange numbers primeSet).ex7.ratioToR5Sum = 0 ∧
      avgRatioToR5 (analyzeRange numbers primeSet).ex7 = 0 ∧
      (analyzeRange numbers primeSet).ex11.ratioCount = 0 ∧
      (analyzeRange numbers primeSet).ex11.ratioToR5Sum = 0 ∧
      avgRatioToR5 (analyzeRange numbers primeSet).ex11 = 0) := by
  have hstep : ∀ (t : Tables) (r3 r5 r7 r11 : Int),
      (exclusiveStep t r3 r5 r7 r11).ex7.ratioCount = t.ex7.ratioCount ∧
      (exclusiveStep t r3 r5 r7 r11).ex7.ratioToR5Sum = t.ex7.ratioToR5Sum ∧
      (exclusiveStep t r3 r5 r7 r11).ex11.ratioCount = t.ex11.ratioCount ∧
      (exclusiveStep t r3 r5 r7 r11).ex11.ratioToR5Sum = t.ex11.ratioToR5Sum := by
    intro t r3 r5 r7 r11
    have h7 : (exclusiveStep t r3 r5 r7 r11).ex7.ratioCount = t.ex7.ratioCount ∧
        (exclusiveStep t r3 r5 r7 r11).ex7.ratioToR5Sum = t.ex7.ratioToR5Sum := by
      rcases (exclusiveStep_cases t r3 r5 r7 r11).2.2.1 with e | ⟨h5, e⟩
      · rw [e]; exact ⟨rfl, rfl⟩
      · rw [e]; exact updateExclusive_no_ratio _ _ _ h5
    have h11 : (exclusiveStep t r3 r5 r7 r11).ex11.ratioCount = t.ex11.ratioCount ∧
        (exclusiveStep t r3 r5 r7 r11).ex11.ratioToR5Sum = t.ex11.ratioToR5Sum := by
      rcases (exclusiveStep_cases t r3 r5 r7 r11).2.2.2 with e | ⟨h5, e⟩
      · rw [e]; exact ⟨rfl, rfl⟩
      · rw [e]; exact updateExclusive_no_ratio _ _ _ h5
    exact ⟨h7.1, h7.2, h11.1, h11.2⟩
  refine ⟨hstep, fun numbers primeSet => ?_⟩
  have hinv : ((analyzeRange numbers primeSet).ex7.ratioCount = 0 ∧
      (analyzeRange numbers primeSet).ex7.ratioToR5Sum = 0) ∧
      ((analyzeRange numbers primeSet).ex11.ratioCount = 0 ∧
      (analyzeRange numbers primeSet).ex11.ratioToR5Sum = 0) := by
    unfold analyzeRange
    apply foldl_tables_invariant (analyzeStep primeSet)
      (fun t => (t.ex7.ratioCount = 0 ∧ t.ex7.ratioToR5Sum = 0) ∧
        (t.ex11.ratioCount = 0 ∧ t.ex11.ratioToR5Sum = 0))
    · intro t n h
      have hs := hstep t (repCount primeSet 3 n) (repCount primeSet 5 n)
        (repCount primeSet 7 n) (repCount primeSet 11 n)
      have hex := analyzeStep_ex primeSet t n
      refine ⟨⟨?_, ?_⟩, ⟨?_, ?_⟩⟩
      · rw [hex.2.2.1, hs.1]; exact h.1.1
      · rw [hex.2.2.1, hs.2.1]; exact h.1.2
      · rw [hex.2.2.2, hs.2.2.1]; exact h.2.1
      · rw [hex.2.2.2, hs.2.2.2]; exact h.2.2
    · exact ⟨⟨rfl, rfl⟩, ⟨rfl, rfl⟩⟩
  refine ⟨hinv.1.1, hinv.1.2, ?_, hinv.2.1, hinv.2.2, ?_⟩
  · simp [avgRatioToR5, hinv.1.1]
  · simp [avgRatioToR5, hinv.2.1]

/-- C18: for every number sequence and every prime set, after `analyzeRange` the exclusive
record and the total-density record of `c = 3` have equal `count`, equal `total` and equal
`ratioToR5Sum`; the exclusive `ratioCount` is at most the total-density `ratioCount`, and
the two differ by the number of `n` in the sequence with `r3 = 0` and `r5 > 0`. -/
theorem analyzeRange_ex3_matches_tot3 (numbers primeSet : List Int) :
    (analyzeRange numbers primeSet).ex3.count = (analyzeRange numbers primeSet).tot3.count ∧
      (analyzeRange numbers primeSet).ex3.total = (analyzeRange numbers primeSet).tot3.total ∧
      (analyzeRange numbers primeSet).ex3.ratioToR5Sum =
        (analyzeRange numbers primeSet).tot3.ratioToR5Sum ∧
      (analyzeRange numbers primeSet).ex3.ratioCount ≤
        (analyzeRange numbers primeSet).tot3.ratioCount ∧
      (analyzeRange numbers primeSet).tot3.ratioCount =
        (analyzeRange numbers primeSet).ex3.ratioCount +
          ((numbers.filter (fun n =>
            decide (repCount primeSet 3 n = 0 ∧ 0 < repCount primeSet 5 n))).length : Int) := by
  obtain ⟨h1, h2, h3, h4⟩ := foldl_ex3_tot3 primeSet numbers {}
  unfold analyzeRange
  have z1 : ({} : Tables).ex3.count - ({} : Tables).tot3.count = 0 := rfl
  have z2 : ({} : Tables).ex3.total - ({} : Tables).tot3.total = 0 := rfl
  have z3 : ({} : Tables).ex3.ratioToR5Sum - ({} : Tables).tot3.ratioToR5Sum = 0 := by
    show (0 : ℚ) - 0 = 0
    ring
  have z4 : ({} : Tables).tot3.ratioCount - ({} : Tables).ex3.ratioCount = 0 := rfl
  rw [z1] at h1
  rw [z2] at h2
  rw [z3] at h3
  rw [z4] at h4
  refine ⟨by omega, by omega, sub_eq_zero.mp h3, by omega, by omega⟩

/-- C19: for every set `S` of positive integers in any iteration order and all integers
`n`, `c`, the count `countRepresentations` returns is at most the full-scan count, the
number of `p` in `S` with `p ≤ target / 2` and `target - p` in `S` (`target = n - c`);
for positive `p` the test `p ≤ target / 2` is the test `p ≤ target - p`. -/
theorem countRepresentations_le_full_scan (S : List Int) (_hnodup : S.Nodup)
    (hpos : ∀ p ∈ S, 0 < p) (n c : Int) :
    countRepresentations n c S ≤ fullScanCount n c S ∧
      fullScanCount n c S =
        (S.filter (fun p => decide (p ≤ (n - c) - p ∧ (n - c) - p ∈ S))).length := by
  refine ⟨countRepresentations_le_fullScan n c S, ?_⟩
  unfold fullScanCount
  congr 1
  apply List.filter_congr
  intro p hp
  simp only [le_tdiv_two_iff (n - c) p (hpos p hp)]

/-- C19 at `S = {3, 5, 7}` iterated as `7, 3, 5`, `n = 13`, `c = 3`: the loop returns 0,
the full scan counts 2. -/
theorem countRepresentations_le_full_scan_witness :
    (countRepresentations 13 3 [7, 3, 5] ≤ fullScanCount 13 3 [7, 3, 5] ∧
      fullScanCount 13 3 [7, 3, 5] =
        (([7, 3, 5] : List Int).filter
          (fun p => decide (p ≤ (13 - 3) - p ∧ (13 - 3) - p ∈ ([7, 3, 5] : List Int)))).length) ∧
      countRepresentations 13 3 [7, 3, 5] = 0 ∧ fullScanCount 13 3 [7, 3, 5] = 2 :=
  ⟨countRepresentations_le_full_scan [7, 3, 5] (by decide) (by decide) 13 3,
    by decide, by decide⟩

/-- C20: for every number sequence and every prime set, each of the eight records of
`analyzeRange` satisfies `0 ≤ count ≤ total`, and the average representation count of
its row (`total / count` when `count > 0`, else 0) is 0 or at least 1. -/
theorem analyzeRange_count_le_total (numbers primeSet : List Int) :
    CountWithinTotal (analyzeRange numbers primeSet).ex3 ∧
      CountWithinTotal (analyzeRange numbers primeSet).ex5 ∧
      CountWithinTotal (analyzeRange numbers primeSet).ex7 ∧
      CountWithinTotal (analyzeRange numbers primeSet).ex11 ∧
      CountWithinTotal (analyzeRange numbers primeSet).tot3 ∧
      CountWithinTotal (analyzeRange numbers primeSet).tot5 ∧
      CountWithinTotal (analyzeRange numbers primeSet).tot7 ∧
      CountWithinTotal (analyzeRange numbers primeSet).tot11 := by
  have key : ∀ (proj : Tables → Stats), proj {} = {} →
      (∀ t n, proj (analyzeStep primeSet t n) = proj t ∨
        (∃ rc r5, 0 < rc ∧ proj (analyzeStep primeSet t n) = updateExclusive (proj t) rc r5) ∨
        (∃ rc r5, 0 ≤ rc ∧ proj (analyzeStep primeSet t n) = updateTotal (proj t) rc r5)) →
      CountWithinTotal (proj (analyzeRange numbers primeSet)) := by
    intro proj h0 hstep
    apply countWithinTotal_of_le
    unfold analyzeRange
    apply foldl_view_invariant proj (analyzeStep primeSet)
      (fun s => 0 ≤ s.count ∧ s.count ≤ s.total)
    · intro t n h
      rcases hstep t n with e | ⟨rc, r5, hrc, e⟩ | ⟨rc, r5, hrc, e⟩
      · rw [e]; exact h
      · rw [e]; exact updateExclusive_count_le _ rc r5 hrc h
      · rw [e]; exact updateTotal_count_le _ rc r5 hrc h
    · rw [h0]
      exact ⟨le_refl _, le_refl _⟩
  refine ⟨key (fun t => t.ex3) rfl (fun t n => ?_), key (fun t => t.ex5) rfl (fun t n => ?_),
    key (fun t => t.ex7) rfl (fun t n => ?_), key (fun t => t.ex11) rfl (fun t n => ?_),
    key (fun t => t.tot3) rfl (fun t n => ?_), key (fun t => t.tot5) rfl (fun t n => ?_),
    key (fun t => t.tot7) rfl (fun t n => ?_), key (fun t => t.tot11) rfl (fun t n => ?_)⟩
  · show (analyzeStep primeSet t n).ex3 = _ ∨ _
    rw [(analyzeStep_ex primeSet t n).1]
    rcases (exclusiveStep_cases_pos t _ _ _ _).1 with e | ⟨h, e⟩
    · exact Or.inl e
    · exact Or.inr (Or.inl ⟨_, _, h, e⟩)
  · show (analyzeStep primeSet t n).ex5 = _ ∨ _
    rw [(analyzeStep_ex primeSet t n).2.1]
    rcases (exclusiveStep_cases_pos t _ _ _ _).2.1 with e | ⟨h, e⟩
    · exact Or.inl e
    · exact Or.inr (Or.inl ⟨_, _, h, e⟩)
  · show (analyzeStep primeSet t n).ex7 = _ ∨ _
    rw [(analyzeStep_ex primeSet t n).2.2.1]
    rcases (exclusiveStep_cases_pos t _ _ _ _).2.2.1 with e | ⟨h, e⟩
    · exact Or.inl e
    · exact Or.inr (Or.inl ⟨_, _, h, e⟩)
  · show (analyzeStep primeSet t n).ex11 = _ ∨ _
    rw [(analyzeStep_ex primeSet t n).2.2.2]
    rcases (exclusiveStep_cases_pos t _ _ _ _).2.2.2 with e | ⟨h, e⟩
    · exact Or.inl e
    · exact Or.inr (Or.inl ⟨_, _, h, e⟩)
  · exact Or.inr (Or.inr ⟨_, _, repCount_nonneg primeSet 3 n, (analyzeStep_tot primeSet t n).1⟩)
  · exact Or.inr (Or.inr ⟨_, _, repCount_nonneg primeSet 5 n,
      (analyzeStep_tot primeSet t n).2.1⟩)
  · exact Or.inr (Or.inr ⟨_, _, repCount_nonneg primeSet 7 n,
      (analyzeStep_tot primeSet t n).2.2.1⟩)
  · exact Or.inr (Or.inr ⟨_, _, repCount_nonneg primeSet 11 n,
      (analyzeStep_tot primeSet t n).2.2.2⟩)
